import Mathlib

/-!
Verification of the workout-logger persistence/validation core (src/app.py).

The embedding models JSON-like Python values (`Val`), the Python coercions
the code relies on (`int(...)`, `float(...)`, `str(...)`, truthiness,
`str.strip`, `datetime.strptime` with format `%Y-%m-%d`), the validator
`validate_workout_payload`, and the SQLite-backed store (`create_workout`,
`get_workout`, `list_workouts`, `update_workout`, `delete_workout`) as pure
state-passing functions over a relational `DB` state.  Python exceptions and
SQLite constraint violations become `Except PyErr`; since every store
operation runs inside one transaction that rolls back on an exception, an
erroneous operation simply does not produce a new state.

Modelling notes (deviations are deliberately conservative and commented at
their definition):
* doubles are modelled as `PyFloat`: NaN, the two infinities, and finite
  values carried as exact rationals — rounding of in-range finite values is
  the one declared approximation, while overflow of `float(int)`, overflow
  and underflow of `float("...")`, and sqlite3's NaN-as-NULL binding are
  modelled exactly;
* `str()` of lists/dicts/floats is approximated by a placeholder rendering:
  only its truthiness/non-blankness is ever semantically relevant downstream;
* `int("...")`/`float("...")` accept sign, digits and (for float) a decimal
  point, exponent and the `nan`/`inf`/`infinity` spellings; Python's
  underscore digit grouping is omitted.
-/

set_option maxRecDepth 20000

namespace WL

/-- JSON-like Python values (the payloads `request.get_json` can produce).
Numbers are split like Python splits them: `int` and `float`, the latter
modelled as a rational. Dicts are association lists with (as in Python)
unique keys; lookup takes the first binding. -/
inductive Val where
  | null : Val
  | bool (b : Bool) : Val
  | int (n : Int) : Val
  | num (q : Rat) : Val
  | str (s : String) : Val
  | list (xs : List Val) : Val
  | dict (fields : List (String × Val)) : Val

/-- Python truthiness (`bool(v)`): None, False, 0, 0.0, "", [] and an empty
dict are falsy. -/
def truthy : Val → Bool
  | .null => false
  | .bool b => b
  | .int n => n != 0
  | .num q => q != 0
  | .str s => s != ""
  | .list xs => !xs.isEmpty
  | .dict fs => !fs.isEmpty

/-- `d.get(k)` on a Python dict: the bound value, or None when absent. -/
def dget (fs : List (String × Val)) (k : String) : Val :=
  (fs.lookup k).getD .null

/-- `v[k]` lookup on any value inside the store operations: `v.get(k)` exists
only on dicts, and dict indexing raises KeyError on a missing key. -/
def vget (v : Val) (k : String) : Val :=
  match v with
  | .dict fs => dget fs k
  | _ => .null

/-- The whitespace `str.strip()` removes (ASCII subset of Python's set). -/
def isPySpace (c : Char) : Bool :=
  c = ' ' || c = '\t' || c = '\n' || c = '\r' || c = '\x0b' || c = '\x0c'

/-- Python `str.strip()`. -/
def pyStrip (s : String) : String :=
  ⟨((s.data.dropWhile isPySpace).reverse.dropWhile isPySpace).reverse⟩

/-- Rendering used for `str(x)` on a float. Python prints the shortest
round-tripping decimal; the exact spelling is semantically irrelevant here
(it feeds only exercise-name storage and error-message text), so the
rendering is approximated. It is never the empty string. -/
def ratPyRepr (q : Rat) : String :=
  if q.den = 1 then toString q.num ++ ".0"
  else toString q.num ++ "/" ++ toString q.den

/-- Python `str(v)` for JSON values. The container renderings are
placeholders: Python's `repr` of a non-empty list/dict is a non-blank
string, and only that fact is used downstream. -/
def pyStr : Val → String
  | .null => "None"
  | .bool b => cond b "True" "False"
  | .int n => toString n
  | .num q => ratPyRepr q
  | .str s => s
  | .list _ => "[...]"
  | .dict _ => "\x7b...\x7d"

/-- Digits of a decimal numeral to a number, `none` when empty or when a
non-digit appears. -/
def digitsToNat : List Char → Option Nat
  | [] => none
  | cs => cs.foldl (fun acc c =>
      match acc with
      | none => none
      | some n => if c.isDigit then some (n * 10 + (c.toNat - '0'.toNat)) else none)
      (some 0)

/-- Truncation of a rational toward zero, which is what Python's
`int(float)` does. -/
def ratTrunc (q : Rat) : Int :=
  q.num.tdiv (q.den : Int)

/-- Python `int("...")`: optional surrounding whitespace, optional sign,
then decimal digits (underscore grouping omitted). -/
def pyIntOfStr (s : String) : Option Int :=
  let cs := (pyStrip s).data
  match cs with
  | '+' :: rest => (digitsToNat rest).map Int.ofNat
  | '-' :: rest => (digitsToNat rest).map (fun n => -(Int.ofNat n))
  | rest => (digitsToNat rest).map Int.ofNat

/-- Python `int(v)` for JSON values, `none` when it raises
(TypeError/ValueError). Booleans coerce (True = 1), floats truncate toward
zero, numeric strings parse; None, lists and dicts raise. -/
def pyInt : Val → Option Int
  | .null => none
  | .bool b => some (cond b 1 0)
  | .int n => some n
  | .num q => some (ratTrunc q)
  | .str s => pyIntOfStr s
  | .list _ => none
  | .dict _ => none

/-- Mantissa and exponent of a decimal string to a rational:
`intPart.fracPart * 10^exp`. -/
def decToRat (intPart fracPart : List Char) (exp : Int) : Option Rat :=
  if intPart.isEmpty ∧ fracPart.isEmpty then none
  else
    match digitsToNat (intPart ++ fracPart) with
    | none => none
    | some m =>
        let k := fracPart.length
        if 0 ≤ exp then some (mkRat (m * 10 ^ exp.toNat) (10 ^ k))
        else some (mkRat m (10 ^ k * 10 ^ (-exp).toNat))

/-- Exponent suffix of a float literal: empty, or `e`/`E`, optional sign,
digits. -/
def parseExp : List Char → Option Int
  | [] => some 0
  | 'e' :: rest => parseSignedDigits rest
  | 'E' :: rest => parseSignedDigits rest
  | _ => none
where
  parseSignedDigits : List Char → Option Int
    | '+' :: ds => (digitsToNat ds).map Int.ofNat
    | '-' :: ds => (digitsToNat ds).map (fun n => -(Int.ofNat n))
    | ds => (digitsToNat ds).map Int.ofNat

/-- Python exceptions and the SQLite errors that abort a transaction. The
distinction between `TypeError` and `ValueError` from a failed coercion is
collapsed into `valueError`; `overflowError` is `OverflowError`, which the
validator's `except (TypeError, ValueError)` does NOT catch. -/
inductive PyErr where
  | attributeError : PyErr
  | keyError : PyErr
  | typeError : PyErr
  | valueError : PyErr
  | integrityError : PyErr
  | overflowError : PyErr
deriving DecidableEq, Repr

/-- An IEEE-754 double as the program observes it: a finite value (carried
as an exact rational — the rounding of in-range finite values is the one
declared approximation of this model), one of the two infinities, or NaN. -/
inductive PyFloat where
  | finite (q : Rat) : PyFloat
  | inf : PyFloat
  | ninf : PyFloat
  | nan : PyFloat
deriving DecidableEq, Repr

/-- Smallest integer magnitude at which `float(int)` raises OverflowError:
`2^1024 - 2^970` is the exact midpoint above the largest double, and
round-to-nearest-even carries it (and everything above) out of range;
`float(dblOvf - 1)` is still the largest finite double. -/
def dblOvf : Nat := 2 ^ 1024 - 2 ^ 970

/-- Magnitudes at or below this round to zero under `float("...")`:
half the smallest subnormal, with the tie going to the even candidate 0. -/
def dblTiny : Rat := mkRat 1 (2 ^ 1075)

/-- `x < 0` on doubles as Python evaluates it: NaN compares false against
everything, `inf < 0` is false, `-inf < 0` is true. -/
def PyFloat.ltZero : PyFloat → Bool
  | .finite q => decide (q < 0)
  | .inf => false
  | .ninf => true
  | .nan => false

/-- A parsed decimal clamped to the double line: magnitudes at or past the
rounding boundary `dblOvf` become the infinities (`float("1e400")` is
`inf`, never an OverflowError), magnitudes at or below `dblTiny` underflow
to zero (`float("-1e-400")` is `-0.0`, equal to 0), and everything between
stands in for its rounded double. -/
def clampDouble (q : Rat) : PyFloat :=
  if (dblOvf : Rat) ≤ q then .inf
  else if q ≤ -(dblOvf : Rat) then .ninf
  else if -dblTiny ≤ q ∧ q ≤ dblTiny then .finite 0
  else .finite q

/-- Python `float("...")`: optional surrounding whitespace, optional sign,
then case-insensitively `nan`, `inf`/`infinity`, or digits with an
optional decimal point and optional exponent (underscore grouping is
omitted). String conversion never raises OverflowError: out-of-range
magnitudes round to the infinities. -/
def pyFloatOfStr (s : String) : Option PyFloat :=
  let cs := (pyStrip s).data
  let (neg, body) :=
    match cs with
    | '+' :: rest => (false, rest)
    | '-' :: rest => (true, rest)
    | rest => (false, rest)
  let lower := body.map Char.toLower
  if lower = "nan".data then some .nan
  else if lower = "inf".data ∨ lower = "infinity".data then
    some (if neg then PyFloat.ninf else PyFloat.inf)
  else
    let intPart := body.takeWhile Char.isDigit
    let afterInt := body.dropWhile Char.isDigit
    let fin : Option Rat :=
      match afterInt with
      | '.' :: rest =>
          let fracPart := rest.takeWhile Char.isDigit
          let afterFrac := rest.dropWhile Char.isDigit
          (match parseExp afterFrac with
           | none => none
           | some e => decToRat intPart fracPart e)
      | rest =>
          (match parseExp rest with
           | none => none
           | some e => if intPart.isEmpty then none else decToRat intPart [] e)
    fin.map (fun q => clampDouble (if neg then -q else q))

/-- Python `float(v)` for JSON values. A shape that cannot convert raises
TypeError or ValueError (collapsed into `valueError` — exactly the kinds
the validator catches); `float(int)` raises OverflowError once the
magnitude reaches `dblOvf`. -/
def pyFloat : Val → Except PyErr PyFloat
  | .null => .error .valueError
  | .bool b => .ok (.finite (cond b 1 0))
  | .int n =>
      if n ≤ -(dblOvf : Int) ∨ (dblOvf : Int) ≤ n then .error .overflowError
      else .ok (.finite (n : Rat))
  | .num q => .ok (.finite q)
  | .str s =>
      match pyFloatOfStr s with
      | some f => .ok f
      | none => .error .valueError
  | .list _ => .error .valueError
  | .dict _ => .error .valueError

/-- The weight value a stored row carries, `float(weight)` on the success
path (the default is never reached there). -/
def pyFloatD (v : Val) : PyFloat :=
  match pyFloat v with
  | .ok f => f
  | .error _ => .finite 0

/-! ### `datetime.strptime(value, "%Y-%m-%d")` and `date.isoformat()` -/

/-- Gregorian leap year, as `calendar`/`datetime` compute it. -/
def isLeap (y : Nat) : Bool :=
  y % 4 = 0 && (y % 100 != 0 || y % 400 = 0)

/-- Days in a month (month assumed in 1..12). -/
def daysInMonth (y m : Nat) : Nat :=
  if m = 2 then (if isLeap y then 29 else 28)
  else if m = 4 ∨ m = 6 ∨ m = 9 ∨ m = 11 then 30
  else 31

def digitVal (c : Char) : Nat := c.toNat - '0'.toNat

/-- The month field of `%m` (CPython regex `1[0-2]|0[1-9]|[1-9]`, then a
literal `-`): a two-digit month 01..12, else a single digit 1..9. A failing
two-digit candidate cannot be rescued by backtracking to one digit, because
the following character would then have to be both a digit and `-`; so the
longest-candidate-first choice below is exact. Returns the month and the
remaining characters past the `-`. -/
def parseMonthDash : List Char → Option (Nat × List Char)
  | a :: b :: '-' :: rest =>
      if a.isDigit ∧ b.isDigit ∧ 1 ≤ 10 * digitVal a + digitVal b ∧
          10 * digitVal a + digitVal b ≤ 12 then
        some (10 * digitVal a + digitVal b, rest)
      else none
  | a :: '-' :: rest =>
      if a.isDigit ∧ 1 ≤ digitVal a then some (digitVal a, rest) else none
  | _ => none

/-- The day field of `%d` at the end of the string (CPython regex
`3[01]|[12]\d|0[1-9]|[1-9]` then end of input): a two-digit day 01..31,
else a single digit 1..9. As for the month, backtracking cannot rescue a
failing two-digit candidate (the leftover digit would have to be the end of
the string). -/
def parseDayEnd : List Char → Option Nat
  | [a] => if a.isDigit ∧ 1 ≤ digitVal a then some (digitVal a) else none
  | [a, b] =>
      if a.isDigit ∧ b.isDigit ∧ 1 ≤ 10 * digitVal a + digitVal b ∧
          10 * digitVal a + digitVal b ≤ 31 then
        some (10 * digitVal a + digitVal b)
      else none
  | _ => none

/-- `datetime.strptime(s, "%Y-%m-%d").date()`: `%Y` is exactly four digits,
then the checks `datetime` itself performs (year ≥ 1, day within the
month). Returns (year, month, day). -/
def strptimeYmd (cs : List Char) : Option (Nat × Nat × Nat) :=
  match cs with
  | y1 :: y2 :: y3 :: y4 :: '-' :: rest =>
      if y1.isDigit ∧ y2.isDigit ∧ y3.isDigit ∧ y4.isDigit then
        let y := ((digitVal y1 * 10 + digitVal y2) * 10 + digitVal y3) * 10 + digitVal y4
        if y = 0 then none
        else
          match parseMonthDash rest with
          | none => none
          | some (m, rest') =>
              match parseDayEnd rest' with
              | none => none
              | some d => if d ≤ daysInMonth y m then some (y, m, d) else none
      else none
  | _ => none

/-- Zero-padded numeral of the given minimum width. -/
def padNum (width n : Nat) : String :=
  let s := toString n
  ⟨List.replicate (width - s.data.length) '0' ++ s.data⟩

/-- `date(y, m, d).isoformat()`. -/
def isoFormat (y m d : Nat) : String :=
  padNum 4 y ++ "-" ++ padNum 2 m ++ "-" ++ padNum 2 d

/-- `_parse_iso_date` (src/app.py:175-188): None and non-strings give None;
a string is stripped, the empty string gives None, otherwise the string
must parse as `%Y-%m-%d` and the normalized ISO form is returned. -/
def parse_iso_date (v : Val) : Option String :=
  match v with
  | .str s =>
      let t := pyStrip s
      if t = "" then none
      else
        match strptimeYmd t.data with
        | none => none
        | some (y, m, d) => some (isoFormat y m d)
  | _ => none

/-! ### `validate_workout_payload` (src/app.py:191-253) -/

/-- `str(ex.get("name") or "").strip()`. -/
def exName (ef : List (String × Val)) : String :=
  let nv := dget ef "name"
  pyStrip (pyStr (if truthy nv then nv else .str ""))

/-- `{name or ei+1}` in the error messages: the (stripped) name when
non-empty, else the exercise's 1-based position. -/
def nameRef (name : String) (pos : Nat) : String :=
  if name = "" then toString pos else name

/-- The validator's `try: float(weight) except (TypeError, ValueError):
weight_num = None`: a caught failure becomes `None`, any other exception —
OverflowError on a huge int — propagates out of the validator. -/
def tryFloat (v : Val) : Except PyErr (Option PyFloat) :=
  match pyFloat v with
  | .ok f => .ok (some f)
  | .error .valueError => .ok none
  | .error e => .error e

/-- The errors one set contributes (`pos` is the 1-based set index); the
weight conversion can raise out of the whole validator. -/
def setErrors (nm : String) (pos : Nat) (s : Val) : Except PyErr (List String) :=
  match s with
  | .dict sf =>
      let reps_int := pyInt (dget sf "reps")
      do
        let weight_num ← tryFloat (dget sf "weight")
        .ok
          ((match reps_int with
            | none => ["Exercise '" ++ nm ++ "' set #" ++ toString pos ++ ": reps must be >= 1."]
            | some i =>
                if i < 1 then
                  ["Exercise '" ++ nm ++ "' set #" ++ toString pos ++ ": reps must be >= 1."]
                else []) ++
           (match weight_num with
            | none => ["Exercise '" ++ nm ++ "' set #" ++ toString pos ++ ": weight must be >= 0."]
            | some f =>
                if f.ltZero then
                  ["Exercise '" ++ nm ++ "' set #" ++ toString pos ++ ": weight must be >= 0."]
                else []))
  | _ => .ok ["Exercise '" ++ nm ++ "' set #" ++ toString pos ++ " is invalid."]

/-- The per-set loop, accumulating errors in order. -/
def setsErrors (nm : String) : Nat → List Val → Except PyErr (List String)
  | _, [] => .ok []
  | pos, s :: rest => do
      let e1 ← setErrors nm pos s
      let e2 ← setsErrors nm (pos + 1) rest
      .ok (e1 ++ e2)

/-- The errors one exercise contributes (`pos` is the 1-based exercise
index; the source's 0-based `ei` appears only as `ei+1`). -/
def exerciseErrors (pos : Nat) (ex : Val) : Except PyErr (List String) :=
  match ex with
  | .dict ef =>
      let name := exName ef
      let nameErrs :=
        if name = "" then ["Exercise #" ++ toString pos ++ ": name is required."] else []
      (match dget ef "sets" with
       | .list ss =>
           if ss.isEmpty then
             .ok (nameErrs ++
               ["Exercise '" ++ nameRef name pos ++ "': at least one set is required."])
           else do
             let es ← setsErrors (nameRef name pos) 1 ss
             .ok (nameErrs ++ es)
       | _ =>
           .ok (nameErrs ++
             ["Exercise '" ++ nameRef name pos ++ "': at least one set is required."]))
  | _ => .ok ["Exercise #" ++ toString pos ++ " is invalid."]

/-- The per-exercise loop. -/
def exercisesErrors : Nat → List Val → Except PyErr (List String)
  | _, [] => .ok []
  | pos, ex :: rest => do
      let e1 ← exerciseErrors pos ex
      let e2 ← exercisesErrors (pos + 1) rest
      .ok (e1 ++ e2)

/-- The validator's body once `payload` is known to be a dict. -/
def validateD (fs : List (String × Val)) : Except PyErr (List String) :=
  let dateErrs :=
    if (parse_iso_date (dget fs "workout_date")).isSome then []
    else ["Workout date is required (YYYY-MM-DD)."]
  match dget fs "exercises" with
  | .list exs =>
      if exs.isEmpty then .ok (dateErrs ++ ["At least one exercise is required."])
      else do
        let es ← exercisesErrors 1 exs
        .ok (dateErrs ++ es)
  | _ => .ok (dateErrs ++ ["At least one exercise is required."])

/-- `validate_workout_payload(payload)`: on a non-dict payload the very
first `payload.get(...)` raises AttributeError (no JSON value other than a
dict has a `get` method); on a dict the accumulated error list is
returned, unless a weight conversion raises OverflowError. -/
def validate_workout_payload (p : Val) : Except PyErr (List String) :=
  match p with
  | .dict fs => validateD fs
  | _ => .error .attributeError

/-! ### The SQLite schema as a relational state (src/app.py:130-168)

AUTOINCREMENT primary keys are modelled by monotone counters that are never
reused; rows are kept in insertion (rowid) order. `PRAGMA foreign_keys=ON`
is set on every connection, so `ON DELETE CASCADE` on both child tables is
live. The `CHECK` constraints of `sets` and the `NOT NULL` of
`workouts.workout_date` are enforced at insert/update time as
`integrityError`. -/

structure WorkoutRow where
  id : Nat
  workout_date : String
  title : Option String
  created_at : String
  updated_at : String
deriving DecidableEq, Repr

structure ExerciseRow where
  id : Nat
  workout_id : Nat
  name : String
  sort_order : Nat
deriving DecidableEq, Repr

structure SetRow where
  id : Nat
  exercise_id : Nat
  set_number : Nat
  reps : Int
  weight : PyFloat
deriving DecidableEq, Repr

structure DB where
  workouts : List WorkoutRow
  exercises : List ExerciseRow
  sets : List SetRow
  nextWorkoutId : Nat
  nextExerciseId : Nat
  nextSetId : Nat
deriving DecidableEq, Repr

def DB.empty : DB := ⟨[], [], [], 1, 1, 1⟩

/-- `payload[k]` (Python dict indexing): KeyError on a missing key,
TypeError when the value is not a dict at all. -/
def pyIndex (v : Val) (k : String) : Except PyErr Val :=
  match v with
  | .dict fs =>
      match fs.lookup k with
      | some w => .ok w
      | none => .error .keyError
  | _ => .error .typeError

/-- `(payload.get("title") or "").strip() or None` (src/app.py:354,400):
a falsy title becomes the empty string; `.strip()` then raises
AttributeError unless the value is a string; a blank result is stored as
NULL. `payload.get` itself raises on a non-dict payload. -/
def titleOf (p : Val) : Except PyErr (Option String) :=
  match p with
  | .dict fs =>
      let t := dget fs "title"
      match (if truthy t then t else .str "") with
      | .str s =>
          let s' := pyStrip s
          .ok (if s' = "" then none else some s')
      | _ => .error .attributeError
  | _ => .error .attributeError

/-- `int(x)` inside an INSERT argument: failure aborts the transaction
(TypeError/ValueError collapsed). -/
def intConv (v : Val) : Except PyErr Int :=
  match pyInt v with
  | some i => .ok i
  | none => .error .valueError

/-- The inner set-insertion loop of `create_workout`/`update_workout`
(src/app.py:368-375, 416-423): `set_number` counts from `n`. After the
Python-level coercions, sqlite3 parameter binding raises OverflowError on
an int outside the signed 64-bit range (reps is bound before weight), and
binds a NaN weight as NULL — tripping the column's NOT NULL as an
IntegrityError; then the table's CHECK constraints (`reps >= 1`,
`weight >= 0`) abort on violation. -/
def insertSetsFrom (eid : Nat) : Nat → List Val → DB → Except PyErr DB
  | _, [], db => .ok db
  | n, s :: rest, db => do
      let repsV ← pyIndex s "reps"
      let reps ← intConv repsV
      let weightV ← pyIndex s "weight"
      let weight ← pyFloat weightV
      if reps < -(2 ^ 63) ∨ 2 ^ 63 - 1 < reps then .error .overflowError
      else if weight = .nan then .error .integrityError
      else if reps < 1 ∨ weight.ltZero then .error .integrityError
      else
        insertSetsFrom eid (n + 1) rest
          { db with
            sets := db.sets ++ [⟨db.nextSetId, eid, n, reps, weight⟩],
            nextSetId := db.nextSetId + 1 }

/-- The exercise-insertion loop (src/app.py:359-375, 407-423):
`sort_order` counts from `n`, the name is `str(ex["name"]).strip()`.
Iterating a non-list `ex["sets"]` is modelled as a failure (for every
payload shape reachable here the Python loop also raises before
committing). -/
def insertExercisesFrom (wid : Nat) : Nat → List Val → DB → Except PyErr DB
  | _, [], db => .ok db
  | n, ex :: rest, db => do
      let nameV ← pyIndex ex "name"
      let nm := pyStrip (pyStr nameV)
      let eid := db.nextExerciseId
      let db' :=
        { db with
          exercises := db.exercises ++ [⟨eid, wid, nm, n⟩],
          nextExerciseId := eid + 1 }
      let setsV ← pyIndex ex "sets"
      match setsV with
      | .list ss => do
          let db'' ← insertSetsFrom eid 1 ss db'
          insertExercisesFrom wid (n + 1) rest db''
      | _ => .error .typeError

/-- `create_workout(db, payload)` (src/app.py:344-378): one transaction
inserting the workout row (timestamps both `now`), then each exercise with
1-based `sort_order`, then each set with 1-based `set_number`. Any failure
rolls the whole transaction back, i.e. produces no new state. -/
def create_workout (db : DB) (p : Val) (now : String) : Except PyErr (Nat × DB) := do
  let wdRaw ← pyIndex p "workout_date"
  let wd := parse_iso_date wdRaw
  let title ← titleOf p
  match wd with
  | none => .error .integrityError
  | some wds =>
      let workout_id := db.nextWorkoutId
      let db' :=
        { db with
          workouts := db.workouts ++ [⟨workout_id, wds, title, now, now⟩],
          nextWorkoutId := workout_id + 1 }
      let exsV ← pyIndex p "exercises"
      match exsV with
      | .list exs => do
          let db'' ← insertExercisesFrom workout_id 1 exs db'
          return (workout_id, db'')
      | _ => .error .typeError

/-! ### Reading (src/app.py:260-341) -/

structure SetOut where
  id : Nat
  set_number : Nat
  reps : Int
  weight : PyFloat
deriving DecidableEq, Repr

structure ExerciseOut where
  id : Nat
  name : String
  sort_order : Nat
  sets : List SetOut
deriving DecidableEq, Repr

structure WorkoutOut where
  id : Nat
  workout_date : String
  title : String
  created_at : String
  updated_at : String
  exercises : List ExerciseOut
deriving DecidableEq, Repr

/-- `ORDER BY sort_order ASC, id ASC`. -/
def exLe (a b : ExerciseRow) : Prop :=
  a.sort_order < b.sort_order ∨ (a.sort_order = b.sort_order ∧ a.id ≤ b.id)

instance : DecidableRel exLe := fun a b =>
  inferInstanceAs (Decidable (a.sort_order < b.sort_order ∨
    (a.sort_order = b.sort_order ∧ a.id ≤ b.id)))

/-- `ORDER BY set_number ASC, id ASC`. -/
def setLe (a b : SetRow) : Prop :=
  a.set_number < b.set_number ∨ (a.set_number = b.set_number ∧ a.id ≤ b.id)

instance : DecidableRel setLe := fun a b =>
  inferInstanceAs (Decidable (a.set_number < b.set_number ∨
    (a.set_number = b.set_number ∧ a.id ≤ b.id)))

/-- `get_workout` (src/app.py:286-341): the workout row (title coalesced to
the empty string), its exercises ordered by `(sort_order, id)`, and each
exercise's sets ordered by `(set_number, id)`. -/
def get_workout (db : DB) (wid : Nat) : Option WorkoutOut :=
  match db.workouts.find? (fun w => w.id == wid) with
  | none => none
  | some w =>
      let es := List.insertionSort exLe (db.exercises.filter (fun e => e.workout_id == wid))
      some
        { id := w.id
          workout_date := w.workout_date
          title := w.title.getD ""
          created_at := w.created_at
          updated_at := w.updated_at
          exercises := es.map fun e =>
            let ss := List.insertionSort setLe (db.sets.filter (fun s => s.exercise_id == e.id))
            { id := e.id
              name := e.name
              sort_order := e.sort_order
              sets := ss.map fun s =>
                { id := s.id, set_number := s.set_number, reps := s.reps, weight := s.weight } } }

structure Summary where
  id : Nat
  workout_date : String
  title : String
  created_at : String
  updated_at : String
  exercise_count : Nat
  set_count : Nat
deriving DecidableEq, Repr

/-- The rows `workouts LEFT JOIN exercises LEFT JOIN sets` produces for one
workout, projected to the two aggregated columns `(e.id, s.id)` (NULL as
`none`). -/
def joinRows (db : DB) (wid : Nat) : List (Option Nat × Option Nat) :=
  let es := db.exercises.filter (fun e => e.workout_id == wid)
  if es.isEmpty then [(none, none)]
  else
    es.flatMap fun e =>
      let ss := db.sets.filter (fun s => s.exercise_id == e.id)
      if ss.isEmpty then [(some e.id, none)]
      else ss.map fun s => (some e.id, some s.id)

/-- One `GROUP BY w.id` output row: `COUNT(DISTINCT e.id)` counts the
distinct non-NULL exercise ids among the join rows, `COUNT(s.id)` the
non-NULL set ids. -/
def summaryOf (db : DB) (w : WorkoutRow) : Summary :=
  let rows := joinRows db w.id
  { id := w.id
    workout_date := w.workout_date
    title := w.title.getD ""
    created_at := w.created_at
    updated_at := w.updated_at
    exercise_count := ((rows.filterMap Prod.fst).dedup).length
    set_count := (rows.filterMap Prod.snd).length }

/-- `ORDER BY w.workout_date DESC, w.id DESC` (SQLite compares TEXT
bytewise, which on ISO dates is chronological order). -/
def sumLe (a b : Summary) : Prop :=
  b.workout_date < a.workout_date ∨ (b.workout_date = a.workout_date ∧ b.id ≤ a.id)

instance : DecidableRel sumLe := fun a b =>
  inferInstanceAs (Decidable (b.workout_date < a.workout_date ∨
    (b.workout_date = a.workout_date ∧ b.id ≤ a.id)))

/-- `list_workouts` (src/app.py:260-283). -/
def list_workouts (db : DB) : List Summary :=
  List.insertionSort sumLe (db.workouts.map (summaryOf db))

/-! ### Mutation (src/app.py:381-436) -/

/-- `DELETE FROM exercises WHERE workout_id = ?` with the cascade to
`sets`. -/
def cascadeDeleteExercises (db : DB) (wid : Nat) : DB :=
  let removedIds := (db.exercises.filter (fun e => e.workout_id == wid)).map (·.id)
  { db with
    exercises := db.exercises.filter (fun e => !(e.workout_id == wid)),
    sets := db.sets.filter (fun s => !(removedIds.contains s.exercise_id)) }

/-- `update_workout` (src/app.py:381-426): inside one transaction, check
existence (returning `false` with no writes when absent), update the
scalar columns and `updated_at`, delete all child exercises (cascading to
their sets), and reinsert from the payload exactly as in `create`. -/
def update_workout (db : DB) (wid : Nat) (p : Val) (now : String) :
    Except PyErr (Bool × DB) :=
  if (db.workouts.find? (fun w => w.id == wid)).isNone then .ok (false, db)
  else do
    let wdRaw ← pyIndex p "workout_date"
    let wd := parse_iso_date wdRaw
    let title ← titleOf p
    match wd with
    | none => .error .integrityError
    | some wds =>
        let db' :=
          { db with
            workouts := db.workouts.map fun w =>
              if w.id == wid then
                { w with workout_date := wds, title := title, updated_at := now }
              else w }
        let db'' := cascadeDeleteExercises db' wid
        let exsV ← pyIndex p "exercises"
        match exsV with
        | .list exs => do
            let db''' ← insertExercisesFrom wid 1 exs db''
            return (true, db''')
        | _ => .error .typeError

/-- `delete_workout` (src/app.py:429-436): delete the workout row; the
cascade removes its exercises and their sets; returns whether a row was
actually deleted (`rowcount > 0`). -/
def delete_workout (db : DB) (wid : Nat) : Bool × DB :=
  let found := db.workouts.any (fun w => w.id == wid)
  let db' := cascadeDeleteExercises
    { db with workouts := db.workouts.filter (fun w => !(w.id == wid)) } wid
  (found, db')

/-! ### The constraints the spec states for a payload

These predicates restate, over the embedded coercions, exactly the
constraints the spec lists for a valid payload; the validator is proved
to return `[]` precisely on payloads satisfying them. -/

/-- One set's constraints: a record whose `reps` coerces to an integer ≥ 1
and whose `weight` coerces (without raising) to a double that is not below
0 — NaN and `inf` compare not-below-0 in Python, so they pass. -/
def validSetB (s : Val) : Bool :=
  match s with
  | .dict sf =>
      (match pyInt (dget sf "reps") with
       | some i => decide (1 ≤ i)
       | none => false) &&
      (match pyFloat (dget sf "weight") with
       | .ok f => ! f.ltZero
       | .error _ => false)
  | _ => false

/-- One exercise's constraints: a record with a non-empty trimmed name and
a non-empty list of valid sets. -/
def validExerciseB (ex : Val) : Bool :=
  match ex with
  | .dict ef =>
      (!(exName ef == "")) &&
      (match dget ef "sets" with
       | .list ss => !ss.isEmpty && ss.all validSetB
       | _ => false)
  | _ => false

/-- A payload satisfying every stated constraint: parseable date and a
non-empty list of valid exercises. -/
def validPayloadB (p : Val) : Bool :=
  match p with
  | .dict fs =>
      (parse_iso_date (dget fs "workout_date")).isSome &&
      (match dget fs "exercises" with
       | .list exs => !exs.isEmpty && exs.all validExerciseB
       | _ => false)
  | _ => false

/-- The `title` shapes under which `(payload.get("title") or "").strip()`
does not raise: absent/None, any string, or any falsy value. -/
def titleOkB (p : Val) : Bool :=
  match p with
  | .dict fs =>
      match dget fs "title" with
      | .str _ => true
      | t => !truthy t
  | _ => false

/-- What the store keeps for the title of a dict payload whose title is
absent, falsy or a string: the trimmed string when non-blank, else NULL. -/
def titleProj (fs : List (String × Val)) : Option String :=
  match dget fs "title" with
  | .str s => if pyStrip s = "" then none else some (pyStrip s)
  | _ => none

/-- A title the claim calls "missing, empty, or whitespace-only". -/
def blankTitle (v : Val) : Prop :=
  v = .null ∨ ∃ s, v = .str s ∧ pyStrip s = ""

/-- An `exercises` field that is missing, not a list, or empty. -/
def noExercises (fs : List (String × Val)) : Bool :=
  match dget fs "exercises" with
  | .list exs => exs.isEmpty
  | _ => true

/-! ### The tree a payload should round-trip to -/

/-- A set with the identity stripped. -/
structure PlainSet where
  set_number : Nat
  reps : Int
  weight : PyFloat
deriving DecidableEq, Repr

/-- An exercise with the identity stripped. -/
structure PlainEx where
  name : String
  sort_order : Nat
  sets : List PlainSet
deriving DecidableEq, Repr

def stripSet (s : SetOut) : PlainSet := ⟨s.set_number, s.reps, s.weight⟩

def stripEx (e : ExerciseOut) : PlainEx := ⟨e.name, e.sort_order, e.sets.map stripSet⟩

/-- The sets of an exercise value (the empty list off the valid shapes). -/
def setsOfEx (ex : Val) : List Val :=
  match vget ex "sets" with
  | .list ss => ss
  | _ => []

/-- The store can actually bind a set's parameters: `int(reps)` fits
SQLite's signed 64-bit INTEGER (the validated lower bound 1 covers the
other side) and `float(weight)` is not NaN, which sqlite3 binds as NULL
against the column's NOT NULL. -/
def setStorableB (s : Val) : Bool :=
  decide ((pyInt (vget s "reps")).getD 0 ≤ 2 ^ 63 - 1) &&
  (match pyFloat (vget s "weight") with
   | .ok .nan => false
   | _ => true)

/-- Every set of the exercise is storable. -/
def exStorableB (ex : Val) : Bool := (setsOfEx ex).all setStorableB

/-- Every set of the payload is storable. -/
def storableB (p : Val) : Bool :=
  match vget p "exercises" with
  | .list exs => exs.all exStorableB
  | _ => true

/-- The sets a payload's exercise should produce, numbered 1-based from
`n`, with `int(reps)` and `float(weight)` as stored values. -/
def expSets : Nat → List Val → List PlainSet
  | _, [] => []
  | n, s :: rest =>
      ⟨n, (pyInt (vget s "reps")).getD 0, pyFloatD (vget s "weight")⟩ :: expSets (n + 1) rest

/-- The exercises a payload should produce, in input order with 1-based
`sort_order` from `n` and 1-based `set_number`s. -/
def expExs : Nat → List Val → List PlainEx
  | _, [] => []
  | n, ex :: rest =>
      ⟨pyStrip (pyStr (vget ex "name")), n, expSets 1 (setsOfEx ex)⟩ :: expExs (n + 1) rest

/-- The full expected identity-free tree of a payload. -/
def payloadPlain (p : Val) : List PlainEx :=
  match vget p "exercises" with
  | .list exs => expExs 1 exs
  | _ => []

/-- The `(reps, weight)` pairs the store should hold for a payload, in
order: `int(reps)` (truncation toward zero) and `float(weight)`. -/
def coercedPairs (p : Val) : List (Int × PyFloat) :=
  (match vget p "exercises" with
   | .list exs => exs
   | _ => []).flatMap fun ex =>
    (setsOfEx ex).map fun s =>
      ((pyInt (vget s "reps")).getD 0, pyFloatD (vget s "weight"))

/-! ### The rows an insertion produces -/

/-- The set rows `insertSetsFrom eid n ss` appends when every set is valid,
with ids counting from `sid`. -/
def buildSets (eid : Nat) : Nat → Nat → List Val → List SetRow
  | _, _, [] => []
  | n, sid, s :: rest =>
      ⟨sid, eid, n, (pyInt (vget s "reps")).getD 0, pyFloatD (vget s "weight")⟩ ::
        buildSets eid (n + 1) (sid + 1) rest

/-- The exercise rows (each with its block of set rows) that
`insertExercisesFrom wid n exs` appends when every exercise is valid, with
exercise ids counting from `eid` and set ids from `sid`. -/
def buildExs (wid : Nat) : Nat → Nat → Nat → List Val → List (ExerciseRow × List SetRow)
  | _, _, _, [] => []
  | n, eid, sid, ex :: rest =>
      let ss := setsOfEx ex
      (⟨eid, wid, pyStrip (pyStr (vget ex "name")), n⟩, buildSets eid 1 sid ss) ::
        buildExs wid (n + 1) (eid + 1) (sid + ss.length) rest

/-- Total number of sets across a payload's exercises. -/
def totalSets (exs : List Val) : Nat :=
  (exs.map fun ex => (setsOfEx ex).length).sum

/-- The strict "most recent first" order the `list()` claim states:
descending date, ties broken by descending id. -/
def listOrd (a b : Summary) : Prop :=
  b.workout_date < a.workout_date ∨
    (b.workout_date = a.workout_date ∧ b.id < a.id)

instance : IsTotal Summary sumLe where
  total a b := by
    unfold sumLe
    rcases lt_trichotomy a.workout_date b.workout_date with h | h | h
    · exact Or.inr (Or.inl h)
    · rcases le_total b.id a.id with h2 | h2
      · exact Or.inl (Or.inr ⟨h.symm, h2⟩)
      · exact Or.inr (Or.inr ⟨h, h2⟩)
    · exact Or.inl (Or.inl h)

instance : IsTrans Summary sumLe where
  trans a b c hab hbc := by
    unfold sumLe at *
    rcases hab with h1 | ⟨h1, h1'⟩ <;> rcases hbc with h2 | ⟨h2, h2'⟩
    · exact Or.inl (lt_trans h2 h1)
    · exact Or.inl (h2 ▸ h1)
    · exact Or.inl (lt_of_lt_of_le h2 (le_of_eq h1))
    · exact Or.inr ⟨h2.trans h1, le_trans h2' h1'⟩

/-- The store produced by a successful `update_workout` that found its
workout (see `update_workout_ok`). -/
def updatedDB (db : DB) (wid : Nat) (t : Option String) (now d : String)
    (exs : List Val) : DB :=
  { workouts := db.workouts.map fun w =>
      if w.id == wid then { w with workout_date := d, title := t, updated_at := now }
      else w
    exercises := db.exercises.filter (fun e => !(e.workout_id == wid)) ++
      (buildExs wid 1 db.nextExerciseId db.nextSetId exs).map Prod.fst
    sets := db.sets.filter (fun s =>
        !(((db.exercises.filter (fun e => e.workout_id == wid)).map
            (·.id)).contains s.exercise_id)) ++
      (buildExs wid 1 db.nextExerciseId db.nextSetId exs).flatMap Prod.snd
    nextWorkoutId := db.nextWorkoutId
    nextExerciseId := db.nextExerciseId + exs.length
    nextSetId := db.nextSetId + totalSets exs }

/-- The store produced by a successful `create_workout` (see
`create_workout_ok`). -/
def createdDB (db : DB) (t : Option String) (now d : String) (exs : List Val) : DB :=
  { workouts := db.workouts ++ [⟨db.nextWorkoutId, d, t, now, now⟩],
    exercises := db.exercises ++
      (buildExs db.nextWorkoutId 1 db.nextExerciseId db.nextSetId exs).map Prod.fst,
    sets := db.sets ++
      (buildExs db.nextWorkoutId 1 db.nextExerciseId db.nextSetId exs).flatMap Prod.snd,
    nextWorkoutId := db.nextWorkoutId + 1,
    nextExerciseId := db.nextExerciseId + exs.length,
    nextSetId := db.nextSetId + totalSets exs }

/-! ### Store well-formedness and reachability -/

/-- Well-formedness of a store state: primary keys are unique and below
the next-id counters, and both foreign keys reference existing parents.
Every state the operations can reach from the empty store satisfies it. -/
structure WF (db : DB) : Prop where
  wNodup : (db.workouts.map (·.id)).Nodup
  eNodup : (db.exercises.map (·.id)).Nodup
  sNodup : (db.sets.map (·.id)).Nodup
  wLt : ∀ w ∈ db.workouts, w.id < db.nextWorkoutId
  eLt : ∀ e ∈ db.exercises, e.id < db.nextExerciseId
  sLt : ∀ s ∈ db.sets, s.id < db.nextSetId
  eFk : ∀ e ∈ db.exercises, ∃ w ∈ db.workouts, w.id = e.workout_id
  sFk : ∀ s ∈ db.sets, ∃ e ∈ db.exercises, e.id = s.exercise_id

/-- The store states reachable through the API: every write goes through
the validator first (`api_create_workout` / `api_update_workout`), and an
operation that raises rolls its transaction back, leaving the state as it
was. -/
inductive Reachable : DB → Prop where
  | init : Reachable DB.empty
  | create {db p now wid db'} : Reachable db →
      validate_workout_payload p = .ok [] →
      create_workout db p now = .ok (wid, db') → Reachable db'
  | update {db wid p now b db'} : Reachable db →
      validate_workout_payload p = .ok [] →
      update_workout db wid p now = .ok (b, db') → Reachable db'
  | delete {db wid} : Reachable db → Reachable (delete_workout db wid).2

/-! ### Concrete sample data

Payloads and store states used to instantiate the theorems at concrete
inputs. -/

def exSquat : Val :=
  .dict [("name", .str "Squat"),
         ("sets", .list [.dict [("reps", .int 5), ("weight", .int 225)]])]

/-- The spec's concrete create scenario. -/
def goodPayload : Val :=
  .dict [("workout_date", .str "2024-01-15"), ("title", .str "Leg Day"),
         ("exercises", .list [exSquat])]

/-- A second valid payload (no title, different date, one exercise). -/
def goodPayload2 : Val :=
  .dict [("workout_date", .str "2024-02-02"),
         ("exercises", .list [.dict [("name", .str "Row"),
            ("sets", .list [.dict [("reps", .int 3), ("weight", .int 0)]])]])]

/-- A payload the validator accepts although its `title` is a truthy
non-string: `create_workout` raises AttributeError on it. -/
def titleIntPayload : Val :=
  .dict [("workout_date", .str "2024-01-15"), ("title", .int 1),
         ("exercises", .list [exSquat])]

/-- A payload whose numerics are a numeric string and a non-integer float:
`reps = "5"` and `reps = 5.9` both validate, and are stored as `5`. -/
def coercePayload : Val :=
  .dict [("workout_date", .str "2024-03-03"),
         ("exercises", .list [.dict [("name", .str "Bench"),
            ("sets", .list [
              .dict [("reps", .str "5"), ("weight", .int 135)],
              .dict [("reps", .num (mkRat 59 10)), ("weight", .str "2.5")]])]])]

/-- A payload whose title is whitespace-only. -/
def blankTitlePayload : Val :=
  .dict [("workout_date", .str "2024-04-04"), ("title", .str "   "),
         ("exercises", .list [exSquat])]

/-- A payload with no title and the weight string `"nan"`: `float("nan")`
is NaN, which is not `< 0`, so the validator accepts it — but sqlite3
binds NaN as NULL and the insert trips `weight REAL NOT NULL`. -/
def nanWeightPayload : Val :=
  .dict [("workout_date", .str "2024-05-05"),
         ("exercises", .list [.dict [("name", .str "Curl"),
            ("sets", .list [.dict [("reps", .int 3), ("weight", .str "nan")]])]])]

/-- The fields of a payload with a whitespace-only title and a `"nan"`
weight: it validates cleanly, yet `create` raises IntegrityError. -/
def nanBlankFields : List (String × Val) :=
  [("workout_date", .str "2024-05-06"), ("title", .str "  "),
   ("exercises", .list [.dict [("name", .str "Curl"),
      ("sets", .list [.dict [("reps", .int 3), ("weight", .str "nan")]])]])]

def nanBlankPayload : Val := .dict nanBlankFields

/-- A payload whose weight is the int `10^400`: `float()` of it raises
OverflowError, which the validator's `except` clause does not catch. -/
def hugeIntPayload : Val :=
  .dict [("workout_date", .str "2024-06-06"),
         ("exercises", .list [.dict [("name", .str "Press"),
            ("sets", .list [.dict [("reps", .int 1), ("weight", .int (10 ^ 400))]])]])]

/-- As `hugeIntPayload` but with weight `-(10^400)` — below 0, yet the
validator raises instead of reporting the weight error. -/
def negHugePayload : Val :=
  .dict [("workout_date", .str "2024-06-07"),
         ("exercises", .list [.dict [("name", .str "Press"),
            ("sets", .list [.dict [("reps", .int 1), ("weight", .int (-(10 ^ 400)))]])]])]

/-- A payload whose reps is `2^63`: the validator accepts it (only `>= 1`
is checked), but sqlite3 cannot bind it into a 64-bit INTEGER and
`create` raises OverflowError. -/
def hugeRepsPayload : Val :=
  .dict [("workout_date", .str "2024-07-07"),
         ("exercises", .list [.dict [("name", .str "Dead"),
            ("sets", .list [.dict [("reps", .int (2 ^ 63)), ("weight", .int 100)]])]])]

/-- The store after creating `goodPayload` in the empty store. -/
def db1 : DB :=
  ((create_workout DB.empty goodPayload "2024-01-15T10:00:00Z").toOption.getD
    (0, DB.empty)).2

/-- `db1` with `goodPayload2` created as well (two workouts). -/
def db2 : DB :=
  ((create_workout db1 goodPayload2 "2024-02-02T10:00:00Z").toOption.getD
    (0, DB.empty)).2

/-! ### The validator accepts exactly the payloads satisfying the stated
constraints -/

theorem exc_bind_ok {ε α β : Type} (a : α) (f : α → Except ε β) :
    (Except.ok a >>= f : Except ε β) = f a := rfl

theorem exc_bind_err {ε α β : Type} (e : ε) (f : α → Except ε β) :
    (Except.error e >>= f : Except ε β) = .error e := rfl

/-- `float(v)` raises only the caught kinds or OverflowError. -/
theorem pyFloat_error {v : Val} {e : PyErr} (h : pyFloat v = .error e) :
    e = .valueError ∨ e = .overflowError := by
  cases v <;> simp only [pyFloat] at h
  case null => exact Or.inl (Except.error.inj h).symm
  case bool b => exact Except.noConfusion h
  case int n =>
      split at h
      · exact Or.inr (Except.error.inj h).symm
      · exact Except.noConfusion h
  case num q => exact Except.noConfusion h
  case str s =>
      cases hp : pyFloatOfStr s <;> rw [hp] at h
      · exact Or.inl (Except.error.inj h).symm
      · exact Except.noConfusion h
  case list l => exact Or.inl (Except.error.inj h).symm
  case dict gs => exact Or.inl (Except.error.inj h).symm

/-- When the validator's guarded conversion raises, the exception is an
OverflowError and `float(v)` itself raised it. -/
theorem tryFloat_err {v : Val} {e : PyErr} (h : tryFloat v = .error e) :
    e = .overflowError ∧ pyFloat v = .error .overflowError := by
  unfold tryFloat at h
  cases hp : pyFloat v with
  | ok f => rw [hp] at h; exact Except.noConfusion h
  | error e' =>
      rw [hp] at h
      rcases pyFloat_error hp with rfl | rfl
      · exact Except.noConfusion h
      · have h2 : (Except.error PyErr.overflowError :
            Except PyErr (Option PyFloat)) = .error e := h
        injection h2 with h3
        exact ⟨h3.symm, rfl⟩

theorem setErrors_err_invalid {nm : String} {pos : Nat} {s : Val} {e : PyErr}
    (h : setErrors nm pos s = .error e) : validSetB s = false := by
  cases s <;> simp only [setErrors] at h
  case dict sf =>
      cases ht : tryFloat (dget sf "weight") with
      | ok w => rw [ht] at h; exact Except.noConfusion h
      | error e' =>
          have hp := (tryFloat_err ht).2
          simp [validSetB, hp]
  all_goals exact Except.noConfusion h

theorem setsErrors_err_invalid {nm : String} {ss : List Val} :
    ∀ {pos : Nat} {e : PyErr}, setsErrors nm pos ss = .error e →
      ss.all validSetB = false := by
  induction ss with
  | nil => intro pos e h; exact Except.noConfusion h
  | cons s rest ih =>
      intro pos e h
      simp only [setsErrors] at h
      cases hs : setErrors nm pos s with
      | error e1 => simp [setErrors_err_invalid hs]
      | ok e1 =>
          rw [hs] at h
          simp only [exc_bind_ok] at h
          cases hr : setsErrors nm (pos + 1) rest with
          | error e2 => simp [ih hr]
          | ok e2 => rw [hr] at h; exact Except.noConfusion h

/-- `exerciseErrors` at an exercise whose `sets` is a non-empty list. -/
theorem exerciseErrors_cons (pos : Nat) (ef : List (String × Val)) (s : Val)
    (rest : List Val) (hs : dget ef "sets" = .list (s :: rest)) :
    exerciseErrors pos (.dict ef) =
      setsErrors (nameRef (exName ef) pos) 1 (s :: rest) >>= fun es =>
        .ok ((if exName ef = "" then
          ["Exercise #" ++ toString pos ++ ": name is required."] else []) ++ es) := by
  simp only [exerciseErrors, hs]
  rfl

theorem exerciseErrors_err_invalid {pos : Nat} {ex : Val} {e : PyErr}
    (h : exerciseErrors pos ex = .error e) : validExerciseB ex = false := by
  cases ex
  case dict ef =>
      cases hs : dget ef "sets" with
      | list ss =>
          cases ss with
          | nil => simp only [exerciseErrors] at h; rw [hs] at h; exact Except.noConfusion h
          | cons s rest =>
              rw [exerciseErrors_cons pos ef s rest hs] at h
              cases hr : setsErrors (nameRef (exName ef) pos) 1 (s :: rest) with
              | error e1 =>
                  have hf := setsErrors_err_invalid hr
                  rw [List.all_cons] at hf
                  simp [validExerciseB, hs, hf]
              | ok es =>
                  rw [hr] at h
                  simp only [exc_bind_ok] at h
                  exact Except.noConfusion h
      | null => simp only [exerciseErrors] at h; rw [hs] at h; exact Except.noConfusion h
      | bool b => simp only [exerciseErrors] at h; rw [hs] at h; exact Except.noConfusion h
      | int n => simp only [exerciseErrors] at h; rw [hs] at h; exact Except.noConfusion h
      | num q => simp only [exerciseErrors] at h; rw [hs] at h; exact Except.noConfusion h
      | str t => simp only [exerciseErrors] at h; rw [hs] at h; exact Except.noConfusion h
      | dict gs => simp only [exerciseErrors] at h; rw [hs] at h; exact Except.noConfusion h
  all_goals (simp only [exerciseErrors] at h; exact Except.noConfusion h)

theorem exercisesErrors_err_invalid {exs : List Val} :
    ∀ {pos : Nat} {e : PyErr}, exercisesErrors pos exs = .error e →
      exs.all validExerciseB = false := by
  induction exs with
  | nil => intro pos e h; exact Except.noConfusion h
  | cons ex rest ih =>
      intro pos e h
      simp only [exercisesErrors] at h
      cases hs : exerciseErrors pos ex with
      | error e1 => simp [exerciseErrors_err_invalid hs]
      | ok e1 =>
          rw [hs] at h
          simp only [exc_bind_ok] at h
          cases hr : exercisesErrors (pos + 1) rest with
          | error e2 => simp [ih hr]
          | ok e2 => rw [hr] at h; exact Except.noConfusion h

theorem setErrors_nil_iff (nm : String) (pos : Nat) (s : Val) :
    setErrors nm pos s = .ok [] ↔ validSetB s = true := by
  cases s <;> simp only [setErrors, validSetB] <;> try simp
  case dict sf =>
    cases h2 : pyFloat (dget sf "weight") with
    | ok f =>
        have ht : tryFloat (dget sf "weight") = .ok (some f) := by
          simp [tryFloat, h2]
        rw [ht]
        simp only [exc_bind_ok]
        cases h1 : pyInt (dget sf "reps") <;> cases hz : f.ltZero <;> simp [hz]
    | error e =>
        have ht := h2
        rcases pyFloat_error h2 with rfl | rfl
        · have htf : tryFloat (dget sf "weight") = .ok none := by
            simp [tryFloat, h2]
          rw [htf]
          simp only [exc_bind_ok]
          cases h1 : pyInt (dget sf "reps") <;> simp [h2]
        · have htf : tryFloat (dget sf "weight") = .error .overflowError := by
            simp [tryFloat, h2]
          rw [htf]
          simp only [exc_bind_err]
          simp [h2]

theorem setsErrors_nil_iff (nm : String) (ss : List Val) :
    ∀ pos, setsErrors nm pos ss = .ok [] ↔ ss.all validSetB = true := by
  induction ss with
  | nil => simp [setsErrors]
  | cons s rest ih =>
      intro pos
      simp only [setsErrors, List.all_cons]
      cases hs : setErrors nm pos s with
      | error e =>
          simp only [exc_bind_err]
          simp [setErrors_err_invalid hs]
      | ok e1 =>
          simp only [exc_bind_ok]
          cases hr : setsErrors nm (pos + 1) rest with
          | error e =>
              simp only [exc_bind_err]
              simp [setsErrors_err_invalid hr]
          | ok e2 =>
              simp only [exc_bind_ok]
              have h1 := setErrors_nil_iff nm pos s
              rw [hs] at h1
              simp only [Except.ok.injEq] at h1
              have h2 := ih (pos + 1)
              rw [hr] at h2
              simp only [Except.ok.injEq] at h2
              simp [h1, h2, List.append_eq_nil]

theorem exerciseErrors_nil_iff (pos : Nat) (ex : Val) :
    exerciseErrors pos ex = .ok [] ↔ validExerciseB ex = true := by
  cases ex
  case dict ef =>
    cases hs : dget ef "sets" with
    | list ss =>
        cases ss with
        | nil =>
            by_cases hn : exName ef = "" <;>
              simp [exerciseErrors, validExerciseB, hs, hn]
        | cons s rest =>
            rw [exerciseErrors_cons pos ef s rest hs]
            cases hr : setsErrors (nameRef (exName ef) pos) 1 (s :: rest) with
            | error e =>
                simp only [hr, exc_bind_err]
                have hf := setsErrors_err_invalid hr
                rw [List.all_cons] at hf
                by_cases hn : exName ef = "" <;>
                  simp [validExerciseB, hs, hn, hf]
            | ok es =>
                simp only [hr, exc_bind_ok]
                have h1 := setsErrors_nil_iff (nameRef (exName ef) pos) (s :: rest) 1
                rw [hr] at h1
                simp only [Except.ok.injEq] at h1
                rw [List.all_cons] at h1
                by_cases hn : exName ef = "" <;>
                  simp [validExerciseB, hs, hn, h1]
    | null => by_cases hn : exName ef = "" <;> simp [exerciseErrors, validExerciseB, hs, hn]
    | bool b => by_cases hn : exName ef = "" <;> simp [exerciseErrors, validExerciseB, hs, hn]
    | int n => by_cases hn : exName ef = "" <;> simp [exerciseErrors, validExerciseB, hs, hn]
    | num q => by_cases hn : exName ef = "" <;> simp [exerciseErrors, validExerciseB, hs, hn]
    | str t => by_cases hn : exName ef = "" <;> simp [exerciseErrors, validExerciseB, hs, hn]
    | dict gs => by_cases hn : exName ef = "" <;> simp [exerciseErrors, validExerciseB, hs, hn]
  all_goals simp [exerciseErrors, validExerciseB]

theorem exercisesErrors_nil_iff (exs : List Val) :
    ∀ pos, exercisesErrors pos exs = .ok [] ↔ exs.all validExerciseB = true := by
  induction exs with
  | nil => simp [exercisesErrors]
  | cons ex rest ih =>
      intro pos
      simp only [exercisesErrors, List.all_cons]
      cases hs : exerciseErrors pos ex with
      | error e =>
          simp only [exc_bind_err]
          simp [exerciseErrors_err_invalid hs]
      | ok e1 =>
          simp only [exc_bind_ok]
          cases hr : exercisesErrors (pos + 1) rest with
          | error e =>
              simp only [exc_bind_err]
              simp [exercisesErrors_err_invalid hr]
          | ok e2 =>
              simp only [exc_bind_ok]
              have h1 := exerciseErrors_nil_iff pos ex
              rw [hs] at h1
              simp only [Except.ok.injEq] at h1
              have h2 := ih (pos + 1)
              rw [hr] at h2
              simp only [Except.ok.injEq] at h2
              simp [h1, h2, List.append_eq_nil]

/-- `validateD` at a non-empty exercise list. -/
theorem validateD_cons (fs : List (String × Val)) (ex : Val) (rest : List Val)
    (he : dget fs "exercises" = .list (ex :: rest)) :
    validateD fs =
      exercisesErrors 1 (ex :: rest) >>= fun es =>
        .ok ((if (parse_iso_date (dget fs "workout_date")).isSome then []
              else ["Workout date is required (YYYY-MM-DD)."]) ++ es) := by
  simp only [validateD, he]
  rfl

theorem validateD_nil_iff (fs : List (String × Val)) :
    validateD fs = .ok [] ↔ validPayloadB (.dict fs) = true := by
  cases he : dget fs "exercises" with
  | list exs =>
      cases exs with
      | nil =>
          by_cases hd : (parse_iso_date (dget fs "workout_date")).isSome <;>
            simp [validateD, validPayloadB, he, hd]
      | cons ex rest =>
          rw [validateD_cons fs ex rest he]
          cases hr : exercisesErrors 1 (ex :: rest) with
          | error e =>
              simp only [hr, exc_bind_err]
              have hf := exercisesErrors_err_invalid hr
              rw [List.all_cons] at hf
              by_cases hd : (parse_iso_date (dget fs "workout_date")).isSome <;>
                simp [validPayloadB, he, hd, hf]
          | ok es =>
              simp only [hr, exc_bind_ok]
              have h1 := exercisesErrors_nil_iff (ex :: rest) 1
              rw [hr] at h1
              simp only [Except.ok.injEq] at h1
              rw [List.all_cons] at h1
              by_cases hd : (parse_iso_date (dget fs "workout_date")).isSome <;>
                simp [validPayloadB, he, hd, h1]
  | null =>
      by_cases hd : (parse_iso_date (dget fs "workout_date")).isSome <;>
        simp [validateD, validPayloadB, he, hd]
  | bool b =>
      by_cases hd : (parse_iso_date (dget fs "workout_date")).isSome <;>
        simp [validateD, validPayloadB, he, hd]
  | int n =>
      by_cases hd : (parse_iso_date (dget fs "workout_date")).isSome <;>
        simp [validateD, validPayloadB, he, hd]
  | num q =>
      by_cases hd : (parse_iso_date (dget fs "workout_date")).isSome <;>
        simp [validateD, validPayloadB, he, hd]
  | str t =>
      by_cases hd : (parse_iso_date (dget fs "workout_date")).isSome <;>
        simp [validateD, validPayloadB, he, hd]
  | dict gs =>
      by_cases hd : (parse_iso_date (dget fs "workout_date")).isSome <;>
        simp [validateD, validPayloadB, he, hd]

theorem validate_ok_nil_iff (p : Val) :
    validate_workout_payload p = .ok [] ↔ validPayloadB p = true := by
  cases p <;> simp [validate_workout_payload, validPayloadB, validateD_nil_iff]

/-- The only exception the validator lets escape on a dict payload is
OverflowError (from `float` of an out-of-range int weight). -/
theorem validateD_err {fs : List (String × Val)} {e : PyErr}
    (h : validateD fs = .error e) : e = .overflowError := by
  have hset : ∀ (s : Val) (pos : Nat) (e' : PyErr) (nm : String),
      setErrors nm pos s = .error e' → e' = .overflowError := by
    intro s pos e' nm h'
    cases s <;> simp only [setErrors] at h'
    case dict sf =>
        cases ht : tryFloat (dget sf "weight") with
        | ok w => rw [ht] at h'; exact Except.noConfusion h'
        | error e2 =>
            rw [ht] at h'
            have h2 : (Except.error e2 : Except PyErr (List String)) = .error e' := h'
            injection h2 with h3
            exact h3 ▸ (tryFloat_err ht).1
    all_goals exact Except.noConfusion h'
  have hcl : ∀ (ss : List Val) (pos : Nat) (e' : PyErr) (nm : String),
      setsErrors nm pos ss = .error e' → e' = .overflowError := by
    intro ss
    induction ss with
    | nil => intro pos e' nm h'; exact Except.noConfusion h'
    | cons s rest ih =>
        intro pos e' nm h'
        simp only [setsErrors] at h'
        cases hs : setErrors nm pos s with
        | error e1 =>
            rw [hs] at h'
            have h2 : (Except.error e1 : Except PyErr (List String)) = .error e' := h'
            injection h2 with h3
            exact h3 ▸ hset s pos e1 nm hs
        | ok e1 =>
            rw [hs] at h'
            simp only [exc_bind_ok] at h'
            cases hr : setsErrors nm (pos + 1) rest with
            | error e2 =>
                rw [hr] at h'
                have h2 : (Except.error e2 : Except PyErr (List String)) = .error e' := h'
                injection h2 with h3
                exact h3 ▸ ih (pos + 1) e2 nm hr
            | ok e2 => rw [hr] at h'; exact Except.noConfusion h'
  have hex : ∀ (exs : List Val) (pos : Nat) (e' : PyErr),
      exercisesErrors pos exs = .error e' → e' = .overflowError := by
    intro exs
    induction exs with
    | nil => intro pos e' h'; exact Except.noConfusion h'
    | cons ex rest ih =>
        intro pos e' h'
        simp only [exercisesErrors] at h'
        cases hs : exerciseErrors pos ex with
        | error e1 =>
            rw [hs] at h'
            have h2 : (Except.error e1 : Except PyErr (List String)) = .error e' := h'
            injection h2 with h3
            have he1 : e1 = .overflowError := by
              cases ex
              case dict ef =>
                  cases hss : dget ef "sets" with
                  | list ss =>
                      cases ss with
                      | nil =>
                          simp only [exerciseErrors] at hs
                          rw [hss] at hs
                          exact Except.noConfusion hs
                      | cons s0 rest0 =>
                          rw [exerciseErrors_cons pos ef s0 rest0 hss] at hs
                          cases hr : setsErrors (nameRef (exName ef) pos) 1
                              (s0 :: rest0) with
                          | error e2 =>
                              rw [hr] at hs
                              have h4 : (Except.error e2 :
                                  Except PyErr (List String)) = .error e1 := hs
                              injection h4 with h5
                              exact h5 ▸ hcl (s0 :: rest0) 1 e2 _ hr
                          | ok es =>
                              rw [hr] at hs
                              simp only [exc_bind_ok] at hs
                              exact Except.noConfusion hs
                  | null =>
                      simp only [exerciseErrors] at hs; rw [hss] at hs
                      exact Except.noConfusion hs
                  | bool b =>
                      simp only [exerciseErrors] at hs; rw [hss] at hs
                      exact Except.noConfusion hs
                  | int n =>
                      simp only [exerciseErrors] at hs; rw [hss] at hs
                      exact Except.noConfusion hs
                  | num q =>
                      simp only [exerciseErrors] at hs; rw [hss] at hs
                      exact Except.noConfusion hs
                  | str t =>
                      simp only [exerciseErrors] at hs; rw [hss] at hs
                      exact Except.noConfusion hs
                  | dict gs =>
                      simp only [exerciseErrors] at hs; rw [hss] at hs
                      exact Except.noConfusion hs
              all_goals (simp only [exerciseErrors] at hs; exact Except.noConfusion hs)
            exact h3 ▸ he1
        | ok e1 =>
            rw [hs] at h'
            simp only [exc_bind_ok] at h'
            cases hr : exercisesErrors (pos + 1) rest with
            | error e2 =>
                rw [hr] at h'
                have h2 : (Except.error e2 : Except PyErr (List String)) = .error e' := h'
                injection h2 with h3
                exact h3 ▸ ih (pos + 1) e2 hr
            | ok e2 => rw [hr] at h'; exact Except.noConfusion h'
  cases he : dget fs "exercises" with
  | list exs =>
      cases exs with
      | nil =>
          simp only [validateD] at h
          rw [he] at h
          exact Except.noConfusion h
      | cons ex rest =>
          rw [validateD_cons fs ex rest he] at h
          cases hr : exercisesErrors 1 (ex :: rest) with
          | error e2 =>
              rw [hr] at h
              have h2 : (Except.error e2 : Except PyErr (List String)) = .error e := h
              injection h2 with h3
              exact h3 ▸ hex (ex :: rest) 1 e2 hr
          | ok es =>
              rw [hr] at h
              simp only [exc_bind_ok] at h
              exact Except.noConfusion h
  | null => simp only [validateD] at h; rw [he] at h; exact Except.noConfusion h
  | bool b => simp only [validateD] at h; rw [he] at h; exact Except.noConfusion h
  | int n => simp only [validateD] at h; rw [he] at h; exact Except.noConfusion h
  | num q => simp only [validateD] at h; rw [he] at h; exact Except.noConfusion h
  | str t => simp only [validateD] at h; rw [he] at h; exact Except.noConfusion h
  | dict gs => simp only [validateD] at h; rw [he] at h; exact Except.noConfusion h

/-! ### Shape of a valid payload -/

theorem lookup_eq_dget_of_ne_null {fs : List (String × Val)} {k : String}
    (h : dget fs k ≠ .null) : fs.lookup k = some (dget fs k) := by
  unfold dget at *
  cases hl : fs.lookup k
  · rw [hl] at h; simp at h
  · rfl

theorem validSet_shape {s : Val} (h : validSetB s = true) :
    ∃ sf, s = .dict sf ∧ (∃ i, pyInt (dget sf "reps") = some i ∧ 1 ≤ i) ∧
      ∃ f, pyFloat (dget sf "weight") = .ok f ∧ f.ltZero = false := by
  cases s <;> simp only [validSetB] at h
  case dict sf =>
    cases h1 : pyInt (dget sf "reps") <;> simp [h1] at h
    cases h2 : pyFloat (dget sf "weight") <;> simp [h2] at h
    exact ⟨sf, rfl, ⟨_, h1, h.1⟩, ⟨_, h2, h.2⟩⟩
  all_goals exact Bool.noConfusion h

/-- What storability of a valid set gives at the shapes the insert loop
reaches: the converted reps fits the 64-bit bind and the converted weight
is not NaN. -/
theorem setStorable_facts {sf : List (String × Val)} {i : Int} {f : PyFloat}
    (hst : setStorableB (.dict sf) = true)
    (hi : pyInt (dget sf "reps") = some i)
    (hf : pyFloat (dget sf "weight") = .ok f) :
    i ≤ 2 ^ 63 - 1 ∧ f ≠ .nan := by
  have hv1 : vget (.dict sf) "reps" = dget sf "reps" := rfl
  have hv2 : vget (.dict sf) "weight" = dget sf "weight" := rfl
  simp only [setStorableB, hv1, hv2, hi, hf, Option.getD_some, Bool.and_eq_true,
    decide_eq_true_eq] at hst
  refine ⟨hst.1, ?_⟩
  intro hnan
  rw [hnan] at hst
  simp at hst

theorem validExercise_shape {ex : Val} (h : validExerciseB ex = true) :
    ∃ ef, ex = .dict ef ∧ exName ef ≠ "" ∧
      ∃ ss, dget ef "sets" = .list ss ∧ ss ≠ [] ∧ ss.all validSetB = true := by
  cases ex <;> simp only [validExerciseB] at h
  case dict ef =>
    cases hs : dget ef "sets" <;> simp [hs] at h
    exact ⟨ef, rfl, h.1, _, hs, h.2.1, List.all_eq_true.mpr h.2.2⟩
  all_goals exact Bool.noConfusion h

theorem validPayload_shape {fs : List (String × Val)}
    (h : validPayloadB (.dict fs) = true) :
    (parse_iso_date (dget fs "workout_date")).isSome = true ∧
    ∃ exs, dget fs "exercises" = .list exs ∧ exs ≠ [] ∧ exs.all validExerciseB = true := by
  simp only [validPayloadB] at h
  cases he : dget fs "exercises" <;> simp [he] at h
  exact ⟨h.1, _, rfl, h.2.1, List.all_eq_true.mpr h.2.2⟩

/-- A valid exercise's `name` key is present (so `ex["name"]` cannot raise)
and its value is truthy, with the stored name equal to the validator's. -/
theorem exName_shape {ef : List (String × Val)} (h : exName ef ≠ "") :
    ef.lookup "name" = some (dget ef "name") ∧ truthy (dget ef "name") = true ∧
      exName ef = pyStrip (pyStr (dget ef "name")) := by
  by_cases ht : truthy (dget ef "name")
  · refine ⟨lookup_eq_dget_of_ne_null ?_, ht, ?_⟩
    · intro h0; rw [h0] at ht; simp [truthy] at ht
    · simp [exName, ht]
  · exfalso
    apply h
    simp [exName, ht]
    rfl

/-! ### What a successful insertion appends -/

theorem insertSetsFrom_ok (eid : Nat) (ss : List Val) :
    ∀ n db, ss.all validSetB = true → ss.all setStorableB = true →
      insertSetsFrom eid n ss db =
        .ok { db with sets := db.sets ++ buildSets eid n db.nextSetId ss,
                      nextSetId := db.nextSetId + ss.length } := by
  induction ss with
  | nil => intro n db _ _; simp [insertSetsFrom, buildSets]
  | cons s rest ih =>
      intro n db hall hstall
      simp only [List.all_cons, Bool.and_eq_true] at hall hstall
      obtain ⟨hs, hrest⟩ := hall
      obtain ⟨hst, hstrest⟩ := hstall
      obtain ⟨sf, rfl, ⟨i, hi, hi1⟩, ⟨f, hq, hq0⟩⟩ := validSet_shape hs
      obtain ⟨hile, hnan⟩ := setStorable_facts hst hi hq
      have hk1 : sf.lookup "reps" = some (dget sf "reps") := by
        apply lookup_eq_dget_of_ne_null
        intro h0; rw [h0] at hi; exact Option.noConfusion hi
      have hk2 : sf.lookup "weight" = some (dget sf "weight") := by
        apply lookup_eq_dget_of_ne_null
        intro h0; rw [h0] at hq; exact Except.noConfusion hq
      have e1 : pyIndex (.dict sf) "reps" = .ok (dget sf "reps") := by
        simp [pyIndex, hk1]
      have e2 : intConv (dget sf "reps") = .ok i := by simp [intConv, hi]
      have e3 : pyIndex (.dict sf) "weight" = .ok (dget sf "weight") := by
        simp [pyIndex, hk2]
      have hcond1 : ¬(i < -(2 ^ 63) ∨ 2 ^ 63 - 1 < i) := by omega
      have hcond2 : ¬(f = PyFloat.nan) := hnan
      have hcond3 : ¬(i < 1 ∨ f.ltZero = true) := by
        rw [not_or]
        exact ⟨not_lt.mpr hi1, by simp [hq0]⟩
      have harith : db.nextSetId + 1 + rest.length = db.nextSetId + (rest.length + 1) := by
        omega
      simp only [insertSetsFrom, e1, exc_bind_ok, e2, e3, hq,
        if_neg hcond1, if_neg hcond2, if_neg hcond3]
      rw [ih (n + 1) _ (List.all_eq_true.mpr fun x hx =>
        (List.all_eq_true.mp hrest) x hx) (List.all_eq_true.mpr fun x hx =>
        (List.all_eq_true.mp hstrest) x hx)]
      simp [buildSets, pyFloatD, vget, hi, hq, List.append_assoc, harith]

/-- A valid but unstorable list of sets makes the insert loop raise:
either the 64-bit bind overflows or the NaN-as-NULL weight trips the
NOT NULL constraint. -/
theorem insertSetsFrom_err (eid : Nat) (ss : List Val) :
    ∀ n db, ss.all validSetB = true → ss.all setStorableB = false →
      ∃ e, insertSetsFrom eid n ss db = .error e := by
  induction ss with
  | nil => intro n db _ h; simp at h
  | cons s rest ih =>
      intro n db hall hstall
      simp only [List.all_cons, Bool.and_eq_true] at hall
      obtain ⟨hs, hrest⟩ := hall
      obtain ⟨sf, rfl, ⟨i, hi, hi1⟩, ⟨f, hq, hq0⟩⟩ := validSet_shape hs
      have hk1 : sf.lookup "reps" = some (dget sf "reps") := by
        apply lookup_eq_dget_of_ne_null
        intro h0; rw [h0] at hi; exact Option.noConfusion hi
      have hk2 : sf.lookup "weight" = some (dget sf "weight") := by
        apply lookup_eq_dget_of_ne_null
        intro h0; rw [h0] at hq; exact Except.noConfusion hq
      have e1 : pyIndex (.dict sf) "reps" = .ok (dget sf "reps") := by
        simp [pyIndex, hk1]
      have e2 : intConv (dget sf "reps") = .ok i := by simp [intConv, hi]
      have e3 : pyIndex (.dict sf) "weight" = .ok (dget sf "weight") := by
        simp [pyIndex, hk2]
      cases hst : setStorableB (.dict sf) with
      | false =>
          have hv1 : vget (.dict sf) "reps" = dget sf "reps" := rfl
          have hv2 : vget (.dict sf) "weight" = dget sf "weight" := rfl
          simp only [setStorableB, hv1, hv2, hi, hq, Option.getD_some,
            Bool.and_eq_false_iff, decide_eq_false_iff_not, not_le] at hst
          by_cases hbig : 2 ^ 63 - 1 < i
          · have hcond1 : i < -(2 ^ 63) ∨ 2 ^ 63 - 1 < i := Or.inr hbig
            refine ⟨.overflowError, ?_⟩
            simp only [insertSetsFrom, e1, exc_bind_ok, e2, e3, hq, if_pos hcond1]
          · have hfn : f = PyFloat.nan := by
              rcases hst with h | h
              · omega
              · cases f <;> simp at h <;> rfl
            have hcond1 : ¬(i < -(2 ^ 63) ∨ 2 ^ 63 - 1 < i) := by omega
            refine ⟨.integrityError, ?_⟩
            simp only [insertSetsFrom, e1, exc_bind_ok, e2, e3, hq,
              if_neg hcond1, if_pos hfn]
      | true =>
          have hstrestf : rest.all setStorableB = false := by
            cases hra : rest.all setStorableB with
            | false => rfl
            | true => rw [List.all_cons, hst, hra] at hstall; simp at hstall
          obtain ⟨hile, hnan⟩ := setStorable_facts hst hi hq
          have hcond1 : ¬(i < -(2 ^ 63) ∨ 2 ^ 63 - 1 < i) := by omega
          have hcond2 : ¬(f = PyFloat.nan) := hnan
          have hcond3 : ¬(i < 1 ∨ f.ltZero = true) := by
            rw [not_or]
            exact ⟨not_lt.mpr hi1, by simp [hq0]⟩
          obtain ⟨e, he⟩ := ih (n + 1)
            { db with
              sets := db.sets ++ [⟨db.nextSetId, eid, n, i, f⟩],
              nextSetId := db.nextSetId + 1 } hrest hstrestf
          refine ⟨e, ?_⟩
          simp only [insertSetsFrom, e1, exc_bind_ok, e2, e3, hq,
            if_neg hcond1, if_neg hcond2, if_neg hcond3]
          exact he

theorem insertExercisesFrom_ok (wid : Nat) (exs : List Val) :
    ∀ n db, exs.all validExerciseB = true → exs.all exStorableB = true →
      insertExercisesFrom wid n exs db =
        .ok { db with
              exercises := db.exercises ++
                (buildExs wid n db.nextExerciseId db.nextSetId exs).map Prod.fst,
              sets := db.sets ++
                (buildExs wid n db.nextExerciseId db.nextSetId exs).flatMap Prod.snd,
              nextExerciseId := db.nextExerciseId + exs.length,
              nextSetId := db.nextSetId + totalSets exs } := by
  induction exs with
  | nil => intro n db _ _; simp [insertExercisesFrom, buildExs, totalSets]
  | cons ex rest ih =>
      intro n db hall hstall
      simp only [List.all_cons, Bool.and_eq_true] at hall hstall
      obtain ⟨hx, hrest⟩ := hall
      obtain ⟨hstx, hstrest⟩ := hstall
      obtain ⟨ef, rfl, hname, ss, hss, hssne, hssall⟩ := validExercise_shape hx
      obtain ⟨hkn, htr, hnm⟩ := exName_shape hname
      have e1 : pyIndex (.dict ef) "name" = .ok (dget ef "name") := by
        simp [pyIndex, hkn]
      have hks : ef.lookup "sets" = some (.list ss) := by
        rw [← hss]
        apply lookup_eq_dget_of_ne_null
        rw [hss]
        intro h0
        exact Val.noConfusion h0
      have e2 : pyIndex (.dict ef) "sets" = .ok (.list ss) := by
        simp [pyIndex, hks]
      have hsx : setsOfEx (.dict ef) = ss := by simp [setsOfEx, vget, hss]
      have hssst : ss.all setStorableB = true := by
        rw [exStorableB, hsx] at hstx
        exact hstx
      simp only [insertExercisesFrom, e1, exc_bind_ok, e2]
      rw [insertSetsFrom_ok _ _ 1 _ hssall hssst]
      simp only [exc_bind_ok]
      rw [ih (n + 1) _ hrest hstrest]
      have harith : db.nextExerciseId + 1 + rest.length =
          db.nextExerciseId + (rest.length + 1) := by omega
      have harith2 : db.nextSetId + ss.length + totalSets rest =
          db.nextSetId + (ss.length + totalSets rest) := by omega
      simp [buildExs, totalSets, hsx, vget, hss, List.append_assoc, harith, harith2]
      omega

/-- A valid but unstorable list of exercises makes the insert loop raise. -/
theorem insertExercisesFrom_err (wid : Nat) (exs : List Val) :
    ∀ n db, exs.all validExerciseB = true → exs.all exStorableB = false →
      ∃ e, insertExercisesFrom wid n exs db = .error e := by
  induction exs with
  | nil => intro n db _ h; simp at h
  | cons ex rest ih =>
      intro n db hall hstall
      simp only [List.all_cons, Bool.and_eq_true] at hall
      obtain ⟨hx, hrest⟩ := hall
      obtain ⟨ef, rfl, hname, ss, hss, hssne, hssall⟩ := validExercise_shape hx
      obtain ⟨hkn, htr, hnm⟩ := exName_shape hname
      have e1 : pyIndex (.dict ef) "name" = .ok (dget ef "name") := by
        simp [pyIndex, hkn]
      have hks : ef.lookup "sets" = some (.list ss) := by
        rw [← hss]
        apply lookup_eq_dget_of_ne_null
        rw [hss]
        intro h0
        exact Val.noConfusion h0
      have e2 : pyIndex (.dict ef) "sets" = .ok (.list ss) := by
        simp [pyIndex, hks]
      have hsx : setsOfEx (.dict ef) = ss := by simp [setsOfEx, vget, hss]
      cases hstx : exStorableB (.dict ef) with
      | false =>
          have hssst : ss.all setStorableB = false := by
            rw [exStorableB, hsx] at hstx
            exact hstx
          obtain ⟨e, he⟩ := insertSetsFrom_err db.nextExerciseId ss 1
            { db with
              exercises := db.exercises ++ [⟨db.nextExerciseId, wid,
                pyStrip (pyStr (dget ef "name")), n⟩],
              nextExerciseId := db.nextExerciseId + 1 } hssall hssst
          refine ⟨e, ?_⟩
          simp only [insertExercisesFrom, e1, exc_bind_ok, e2, he, exc_bind_err]
      | true =>
          have hstrestf : rest.all exStorableB = false := by
            cases hra : rest.all exStorableB with
            | false => rfl
            | true => rw [List.all_cons, hstx, hra] at hstall; simp at hstall
          have hssst : ss.all setStorableB = true := by
            rw [exStorableB, hsx] at hstx
            exact hstx
          obtain ⟨e, he⟩ := ih (n + 1) _ hrest hstrestf
          refine ⟨e, ?_⟩
          simp only [insertExercisesFrom, e1, exc_bind_ok, e2]
          rw [insertSetsFrom_ok _ _ 1 _ hssall hssst]
          simp only [exc_bind_ok]
          exact he

/-- What a successful `create_workout` on a valid payload produces: the
workout row with both timestamps `now`, the exercise rows in input order
with `sort_order` 1.., and the set rows with `set_number` 1.., all with
fresh sequential ids. -/
theorem create_workout_ok (db : DB) (fs : List (String × Val)) (now : String)
    (t : Option String) (exs : List Val) (d : String)
    (hv : validPayloadB (.dict fs) = true)
    (hst : exs.all exStorableB = true)
    (ht : titleOf (.dict fs) = .ok t)
    (hexs : dget fs "exercises" = .list exs)
    (hd : parse_iso_date (dget fs "workout_date") = some d) :
    create_workout db (.dict fs) now =
      .ok (db.nextWorkoutId,
        { workouts := db.workouts ++ [⟨db.nextWorkoutId, d, t, now, now⟩],
          exercises := db.exercises ++
            (buildExs db.nextWorkoutId 1 db.nextExerciseId db.nextSetId exs).map Prod.fst,
          sets := db.sets ++
            (buildExs db.nextWorkoutId 1 db.nextExerciseId db.nextSetId exs).flatMap Prod.snd,
          nextWorkoutId := db.nextWorkoutId + 1,
          nextExerciseId := db.nextExerciseId + exs.length,
          nextSetId := db.nextSetId + totalSets exs }) := by
  obtain ⟨hdate, exs', hexs', hne, hall⟩ := validPayload_shape hv
  rw [hexs] at hexs'
  obtain rfl : exs = exs' := Val.list.inj hexs'
  have hkd : fs.lookup "workout_date" = some (dget fs "workout_date") := by
    apply lookup_eq_dget_of_ne_null
    intro h0
    rw [h0] at hd
    simp [parse_iso_date] at hd
  have hke : fs.lookup "exercises" = some (.list exs) := by
    rw [← hexs]
    apply lookup_eq_dget_of_ne_null
    rw [hexs]
    exact fun h0 => Val.noConfusion h0
  have e1 : pyIndex (.dict fs) "workout_date" = .ok (dget fs "workout_date") := by
    simp [pyIndex, hkd]
  have e2 : pyIndex (.dict fs) "exercises" = .ok (.list exs) := by
    simp [pyIndex, hke]
  simp only [create_workout, e1, exc_bind_ok, ht, hd, e2]
  rw [insertExercisesFrom_ok _ _ 1 _ hall hst]
  simp [exc_bind_ok]

/-! ### Structure of the inserted rows -/

theorem buildSets_mem (eid : Nat) (ss : List Val) :
    ∀ n sid, ∀ r ∈ buildSets eid n sid ss,
      r.exercise_id = eid ∧ n ≤ r.set_number ∧ sid ≤ r.id := by
  induction ss with
  | nil => simp [buildSets]
  | cons s rest ih =>
      intro n sid r hr
      rcases List.mem_cons.mp hr with rfl | htail
      · exact ⟨rfl, le_refl _, le_refl _⟩
      · obtain ⟨h1, h2, h3⟩ := ih (n + 1) (sid + 1) r htail
        exact ⟨h1, by omega, by omega⟩

theorem buildSets_pairwise (eid : Nat) (ss : List Val) :
    ∀ n sid, List.Pairwise setLe (buildSets eid n sid ss) := by
  induction ss with
  | nil => simp [buildSets]
  | cons s rest ih =>
      intro n sid
      refine List.Pairwise.cons ?_ (ih (n + 1) (sid + 1))
      intro r hr
      obtain ⟨_, h2, _⟩ := buildSets_mem eid rest (n + 1) (sid + 1) r hr
      exact Or.inl (by simpa [buildSets] using by omega)

theorem buildSets_plain (eid : Nat) (ss : List Val) :
    ∀ n sid, (buildSets eid n sid ss).map
        (fun r => PlainSet.mk r.set_number r.reps r.weight) = expSets n ss := by
  induction ss with
  | nil => simp [buildSets, expSets]
  | cons s rest ih => intro n sid; simp [buildSets, expSets, ih (n + 1) (sid + 1)]

theorem buildExs_mem (wid : Nat) (exs : List Val) :
    ∀ n eid sid, ∀ pr ∈ buildExs wid n eid sid exs,
      pr.1.workout_id = wid ∧ n ≤ pr.1.sort_order ∧ eid ≤ pr.1.id ∧
        ∀ r ∈ pr.2, r.exercise_id = pr.1.id := by
  induction exs with
  | nil => simp [buildExs]
  | cons ex rest ih =>
      intro n eid sid pr hpr
      rcases List.mem_cons.mp hpr with rfl | htail
      · refine ⟨rfl, le_refl _, le_refl _, ?_⟩
        intro r hr
        exact (buildSets_mem eid _ 1 sid r hr).1
      · obtain ⟨h1, h2, h3, h4⟩ := ih (n + 1) (eid + 1) (sid + (setsOfEx ex).length) pr htail
        exact ⟨h1, by omega, by omega, h4⟩

theorem buildExs_pairwise (wid : Nat) (exs : List Val) :
    ∀ n eid sid, List.Pairwise exLe ((buildExs wid n eid sid exs).map Prod.fst) := by
  induction exs with
  | nil => simp [buildExs]
  | cons ex rest ih =>
      intro n eid sid
      simp only [buildExs, List.map_cons]
      refine List.Pairwise.cons ?_ (ih (n + 1) (eid + 1) (sid + (setsOfEx ex).length))
      intro e he
      obtain ⟨pr, hpr, rfl⟩ := List.mem_map.mp he
      obtain ⟨_, h2, _, _⟩ := buildExs_mem wid rest (n + 1) (eid + 1) _ pr hpr
      unfold exLe
      left
      show n < pr.1.sort_order
      omega

theorem buildExs_flat_bound (wid : Nat) (exs : List Val) :
    ∀ n eid sid, ∀ r ∈ (buildExs wid n eid sid exs).flatMap Prod.snd,
      eid ≤ r.exercise_id := by
  intro n eid sid r hr
  obtain ⟨pr, hpr, hrin⟩ := List.mem_flatMap.mp hr
  obtain ⟨_, _, h3, h4⟩ := buildExs_mem wid exs n eid sid pr hpr
  rw [h4 r hrin]
  exact h3

/-- Filtering the sets table for one freshly inserted exercise recovers
exactly its block of inserted set rows. -/
theorem filter_block (wid : Nat) (exs : List Val) :
    ∀ n eid sid (olds : List SetRow), (∀ s ∈ olds, s.exercise_id < eid) →
      ∀ pr ∈ buildExs wid n eid sid exs,
        (olds ++ (buildExs wid n eid sid exs).flatMap Prod.snd).filter
          (fun s => s.exercise_id == pr.1.id) = pr.2 := by
  induction exs with
  | nil => simp [buildExs]
  | cons ex rest ih =>
      intro n eid sid olds holds pr hpr
      have hexp : buildExs wid n eid sid (ex :: rest) =
          (⟨eid, wid, pyStrip (pyStr (vget ex "name")), n⟩,
            buildSets eid 1 sid (setsOfEx ex)) ::
            buildExs wid (n + 1) (eid + 1) (sid + (setsOfEx ex).length) rest := rfl
      rw [hexp] at hpr ⊢
      have hflat : ((⟨eid, wid, pyStrip (pyStr (vget ex "name")), n⟩,
            buildSets eid 1 sid (setsOfEx ex)) ::
            buildExs wid (n + 1) (eid + 1) (sid + (setsOfEx ex).length) rest).flatMap
            Prod.snd =
          buildSets eid 1 sid (setsOfEx ex) ++
            (buildExs wid (n + 1) (eid + 1) (sid + (setsOfEx ex).length) rest).flatMap
              Prod.snd := by
        simp
      rw [hflat]
      rcases List.mem_cons.mp hpr with rfl | htail
      · rw [← List.append_assoc, List.filter_append, List.filter_append]
        have h1 : olds.filter (fun s => s.exercise_id == eid) = [] := by
          rw [List.filter_eq_nil_iff]
          intro s hs
          have := holds s hs
          simp only [beq_iff_eq]
          omega
        have h2 : (buildSets eid 1 sid (setsOfEx ex)).filter
            (fun s => s.exercise_id == eid) = buildSets eid 1 sid (setsOfEx ex) := by
          rw [List.filter_eq_self]
          intro s hs
          simp [(buildSets_mem eid _ 1 sid s hs).1]
        have h3 : ((buildExs wid (n + 1) (eid + 1) (sid + (setsOfEx ex).length)
            rest).flatMap Prod.snd).filter (fun s => s.exercise_id == eid) = [] := by
          rw [List.filter_eq_nil_iff]
          intro s hs
          have := buildExs_flat_bound wid rest (n + 1) (eid + 1) _ s hs
          simp only [beq_iff_eq]
          omega
        rw [h1, h2, h3]
        simp
      · have holds' : ∀ s ∈ olds ++ buildSets eid 1 sid (setsOfEx ex),
            s.exercise_id < eid + 1 := by
          intro s hs
          rcases List.mem_append.mp hs with h | h
          · have := holds s h; omega
          · have := (buildSets_mem eid _ 1 sid s h).1; omega
        have := ih (n + 1) (eid + 1) (sid + (setsOfEx ex).length)
          (olds ++ buildSets eid 1 sid (setsOfEx ex)) holds' pr htail
        rw [← List.append_assoc]
        exact this

theorem buildExs_snd_pairwise (wid : Nat) (exs : List Val) :
    ∀ n eid sid, ∀ pr ∈ buildExs wid n eid sid exs, List.Pairwise setLe pr.2 := by
  induction exs with
  | nil => simp [buildExs]
  | cons ex rest ih =>
      intro n eid sid pr hpr
      rcases List.mem_cons.mp hpr with rfl | htail
      · exact buildSets_pairwise eid _ 1 sid
      · exact ih (n + 1) (eid + 1) (sid + (setsOfEx ex).length) pr htail

/-- `get_workout`'s nested read reproduces the freshly inserted tree
verbatim: each stored exercise, in order, paired with its own block of
stored sets. -/
theorem get_exercises_eq (wid : Nat) (exs : List Val) (n eid sid : Nat)
    (olds : List SetRow) (holds : ∀ s ∈ olds, s.exercise_id < eid) :
    ((buildExs wid n eid sid exs).map Prod.fst).map (fun e =>
        ExerciseOut.mk e.id e.name e.sort_order
          ((List.insertionSort setLe
              ((olds ++ (buildExs wid n eid sid exs).flatMap Prod.snd).filter
                (fun s => s.exercise_id == e.id))).map
            (fun s => SetOut.mk s.id s.set_number s.reps s.weight))) =
      (buildExs wid n eid sid exs).map (fun pr =>
        ExerciseOut.mk pr.1.id pr.1.name pr.1.sort_order
          (pr.2.map (fun s => SetOut.mk s.id s.set_number s.reps s.weight))) := by
  rw [List.map_map]
  apply List.map_congr_left
  intro pr hpr
  have hfil := filter_block wid exs n eid sid olds holds pr hpr
  have hsorted : List.Pairwise setLe pr.2 :=
    buildExs_snd_pairwise wid exs n eid sid pr hpr
  simp only [Function.comp]
  rw [hfil, List.Sorted.insertionSort_eq hsorted]

/-- Reading back a workout right after its children were (re)inserted:
the fetched tree lists the inserted exercises in insertion order, each
with its inserted sets in insertion order. -/
theorem get_after_insert (db₀ : DB) (wid : Nat) (w : WorkoutRow) (exs : List Val)
    (nW nE nS : Nat)
    (hfind : db₀.workouts.find? (fun x => x.id == wid) = some w)
    (hnoex : ∀ e ∈ db₀.exercises, e.workout_id ≠ wid)
    (hsetlt : ∀ s ∈ db₀.sets, s.exercise_id < db₀.nextExerciseId) :
    get_workout
      { workouts := db₀.workouts,
        exercises := db₀.exercises ++
          (buildExs wid 1 db₀.nextExerciseId db₀.nextSetId exs).map Prod.fst,
        sets := db₀.sets ++
          (buildExs wid 1 db₀.nextExerciseId db₀.nextSetId exs).flatMap Prod.snd,
        nextWorkoutId := nW, nextExerciseId := nE, nextSetId := nS } wid =
      some (WorkoutOut.mk w.id w.workout_date (w.title.getD "") w.created_at w.updated_at
        ((buildExs wid 1 db₀.nextExerciseId db₀.nextSetId exs).map (fun pr =>
          ExerciseOut.mk pr.1.id pr.1.name pr.1.sort_order
            (pr.2.map (fun s => SetOut.mk s.id s.set_number s.reps s.weight))))) := by
  have hfe : (db₀.exercises ++
      (buildExs wid 1 db₀.nextExerciseId db₀.nextSetId exs).map Prod.fst).filter
        (fun e => e.workout_id == wid) =
      (buildExs wid 1 db₀.nextExerciseId db₀.nextSetId exs).map Prod.fst := by
    rw [List.filter_append]
    have h1 : db₀.exercises.filter (fun e => e.workout_id == wid) = [] := by
      rw [List.filter_eq_nil_iff]
      intro e he
      simpa using hnoex e he
    have h2 : ((buildExs wid 1 db₀.nextExerciseId db₀.nextSetId exs).map
        Prod.fst).filter (fun e => e.workout_id == wid) =
        (buildExs wid 1 db₀.nextExerciseId db₀.nextSetId exs).map Prod.fst := by
      rw [List.filter_eq_self]
      intro e he
      obtain ⟨pr, hpr, rfl⟩ := List.mem_map.mp he
      simp [(buildExs_mem wid exs 1 db₀.nextExerciseId db₀.nextSetId pr hpr).1]
    rw [h1, h2, List.nil_append]
  unfold get_workout
  simp only [hfind, hfe,
    List.Sorted.insertionSort_eq (buildExs_pairwise wid exs 1 db₀.nextExerciseId db₀.nextSetId)]
  rw [get_exercises_eq wid exs 1 db₀.nextExerciseId db₀.nextSetId db₀.sets hsetlt]

/-- Stripping the identities off the freshly fetched tree leaves exactly
the payload's expected content. -/
theorem buildExs_strip (wid : Nat) (exs : List Val) :
    ∀ n eid sid,
      ((buildExs wid n eid sid exs).map (fun pr =>
        ExerciseOut.mk pr.1.id pr.1.name pr.1.sort_order
          (pr.2.map (fun s => SetOut.mk s.id s.set_number s.reps s.weight)))).map stripEx =
      expExs n exs := by
  induction exs with
  | nil => simp [buildExs, expExs]
  | cons ex rest ih =>
      intro n eid sid
      have h2 := ih (n + 1) (eid + 1) (sid + (setsOfEx ex).length)
      have h1 := buildSets_plain eid (setsOfEx ex) 1 sid
      rw [List.map_map] at h2 ⊢
      simp only [buildExs, expExs, List.map_cons]
      rw [h2]
      congr 1
      simp only [Function.comp, stripEx, List.map_map]
      rw [← h1]
      rfl

theorem pyStrip_empty : pyStrip "" = "" := rfl

/-- A title of the safe shapes is normalized exactly to `titleProj`. -/
theorem titleOf_of_titleOk {fs : List (String × Val)}
    (h : titleOkB (.dict fs) = true) : titleOf (.dict fs) = .ok (titleProj fs) := by
  simp only [titleOkB] at h
  simp only [titleOf, titleProj]
  cases ht : dget fs "title" with
  | str s =>
      by_cases hs : s = ""
      · subst hs
        simp [truthy, pyStrip_empty]
      · have htr : truthy (.str s) = true := by simp [truthy, hs]
        simp [htr]
  | null => simp [truthy, pyStrip_empty]
  | bool b =>
      rw [ht] at h
      simp at h
      subst h
      simp [truthy, pyStrip_empty]
  | int n =>
      rw [ht] at h
      simp [truthy] at h
      subst h
      simp [truthy, pyStrip_empty]
  | num q =>
      rw [ht] at h
      simp [truthy] at h
      subst h
      simp [truthy, pyStrip_empty]
  | list xs =>
      rw [ht] at h
      simp [truthy] at h
      subst h
      simp [truthy, pyStrip_empty]
  | dict gs =>
      rw [ht] at h
      simp [truthy] at h
      subst h
      simp [truthy, pyStrip_empty]

/-! ### Locating rows -/

/-- A freshly appended workout row is the one `WHERE id = ?` finds, because
every earlier row has a smaller id. -/
theorem find?_fresh (l : List WorkoutRow) (k : Nat) (w : WorkoutRow)
    (hlt : ∀ x ∈ l, x.id ≠ k) (hw : w.id = k) :
    (l ++ [w]).find? (fun x => x.id == k) = some w := by
  induction l with
  | nil => simp [List.find?, hw]
  | cons a rest ih =>
      have ha : (a.id == k) = false := by
        simpa using hlt a (List.mem_cons_self a rest)
      simp only [List.cons_append, List.find?, ha]
      exact ih fun x hx => hlt x (List.mem_cons_of_mem a hx)

/-- Updating the matching row in place commutes with `find?`. -/
theorem find?_update_map (l : List WorkoutRow) (k : Nat) (g : WorkoutRow → WorkoutRow)
    (hg : ∀ w, (g w).id = w.id) :
    (l.map fun w => if w.id == k then g w else w).find? (fun x => x.id == k) =
      (l.find? (fun x => x.id == k)).map fun w => if w.id == k then g w else w := by
  induction l with
  | nil => simp
  | cons a rest ih =>
      by_cases ha : a.id = k
      · simp [List.find?, ha, hg]
      · have ha' : (a.id == k) = false := by simpa using ha
        simp only [List.map_cons, List.find?, ha', if_neg (by simpa using ha)]
        simpa [ha'] using ih

theorem WF.noex {db : DB} (hwf : WF db) :
    ∀ e ∈ db.exercises, e.workout_id ≠ db.nextWorkoutId := by
  intro e he
  obtain ⟨w, hw, hid⟩ := hwf.eFk e he
  have := hwf.wLt w hw
  omega

theorem WF.setlt {db : DB} (hwf : WF db) :
    ∀ s ∈ db.sets, s.exercise_id < db.nextExerciseId := by
  intro s hs
  obtain ⟨e, he, hid⟩ := hwf.sFk s hs
  have := hwf.eLt e he
  omega

/-- What a successful `update_workout` on a valid payload and an existing
id produces: scalar columns rewritten with `updated_at := now`, all old
child rows of this workout gone, and the payload's tree reinserted with
fresh ids. -/
theorem update_workout_ok (db : DB) (wid : Nat) (fs : List (String × Val))
    (now : String) (t : Option String) (exs : List Val) (d : String)
    (hv : validPayloadB (.dict fs) = true)
    (hst : exs.all exStorableB = true)
    (ht : titleOf (.dict fs) = .ok t)
    (hexs : dget fs "exercises" = .list exs)
    (hd : parse_iso_date (dget fs "workout_date") = some d)
    (hfound : (db.workouts.find? (fun w => w.id == wid)).isNone = false) :
    update_workout db wid (.dict fs) now =
      .ok (true,
        { workouts := db.workouts.map fun w =>
            if w.id == wid then
              { w with workout_date := d, title := t, updated_at := now }
            else w
          exercises :=
            db.exercises.filter (fun e => !(e.workout_id == wid)) ++
              (buildExs wid 1 db.nextExerciseId db.nextSetId exs).map Prod.fst
          sets :=
            db.sets.filter (fun s =>
                !(((db.exercises.filter (fun e => e.workout_id == wid)).map
                    (·.id)).contains s.exercise_id)) ++
              (buildExs wid 1 db.nextExerciseId db.nextSetId exs).flatMap Prod.snd
          nextWorkoutId := db.nextWorkoutId
          nextExerciseId := db.nextExerciseId + exs.length
          nextSetId := db.nextSetId + totalSets exs }) := by
  obtain ⟨hdate, exs', hexs', hne, hall⟩ := validPayload_shape hv
  rw [hexs] at hexs'
  obtain rfl : exs = exs' := Val.list.inj hexs'
  have hkd : fs.lookup "workout_date" = some (dget fs "workout_date") := by
    apply lookup_eq_dget_of_ne_null
    intro h0
    rw [h0] at hd
    simp [parse_iso_date] at hd
  have hke : fs.lookup "exercises" = some (.list exs) := by
    rw [← hexs]
    apply lookup_eq_dget_of_ne_null
    rw [hexs]
    exact fun h0 => Val.noConfusion h0
  have e1 : pyIndex (.dict fs) "workout_date" = .ok (dget fs "workout_date") := by
    simp [pyIndex, hkd]
  have e2 : pyIndex (.dict fs) "exercises" = .ok (.list exs) := by
    simp [pyIndex, hke]
  simp only [update_workout, hfound, Bool.false_eq_true, if_false, e1, exc_bind_ok,
    ht, hd, e2, cascadeDeleteExercises]
  rw [insertExercisesFrom_ok _ _ 1 _ hall hst]
  simp [exc_bind_ok]

theorem validPayload_dict {p : Val} (h : validPayloadB p = true) :
    ∃ fs, p = .dict fs := by
  cases p <;> try exact ⟨_, rfl⟩
  all_goals simp [validPayloadB] at h

theorem titleProj_blank {fs : List (String × Val)} (h : blankTitle (dget fs "title")) :
    titleOkB (.dict fs) = true ∧ titleProj fs = none := by
  rcases h with h | ⟨s, h, hs⟩
  · simp [titleOkB, titleProj, h, truthy]
  · simp [titleOkB, titleProj, h, hs]

theorem titleProj_nonblank {fs : List (String × Val)} {s : String}
    (h : dget fs "title" = .str s) (hs : pyStrip s ≠ "") :
    titleOkB (.dict fs) = true ∧ titleProj fs = some (pyStrip s) := by
  simp [titleOkB, titleProj, h, hs]

/-- On a valid payload `create_workout` either raises — possible only when
a converted parameter cannot be bound (reps outside 64 bits, NaN weight) —
or succeeds with the fresh id and exactly the `createdDB` state. -/
theorem create_reduce (db : DB) (now : String) {fs : List (String × Val)}
    (hvb : validPayloadB (.dict fs) = true) :
    (∃ e, create_workout db (.dict fs) now = .error e) ∨
    (∃ t exs d, titleOf (.dict fs) = .ok t ∧ dget fs "exercises" = .list exs ∧
      exs.all exStorableB = true ∧
      parse_iso_date (dget fs "workout_date") = some d ∧
      create_workout db (.dict fs) now =
        .ok (db.nextWorkoutId, createdDB db t now d exs)) := by
  obtain ⟨hdate, exs, hexs, hne, hall⟩ := validPayload_shape hvb
  obtain ⟨d, hd⟩ := Option.isSome_iff_exists.mp hdate
  have hkd : fs.lookup "workout_date" = some (dget fs "workout_date") := by
    apply lookup_eq_dget_of_ne_null
    intro h0
    rw [h0] at hd
    simp [parse_iso_date] at hd
  have hke : fs.lookup "exercises" = some (.list exs) := by
    rw [← hexs]
    apply lookup_eq_dget_of_ne_null
    rw [hexs]
    exact fun h0 => Val.noConfusion h0
  have e1 : pyIndex (.dict fs) "workout_date" = .ok (dget fs "workout_date") := by
    simp [pyIndex, hkd]
  have e2 : pyIndex (.dict fs) "exercises" = .ok (.list exs) := by
    simp [pyIndex, hke]
  cases htt : titleOf (.dict fs) with
  | error err =>
      refine Or.inl ⟨err, ?_⟩
      simp only [create_workout, e1, exc_bind_ok, htt, exc_bind_err]
  | ok t =>
      cases hstore : exs.all exStorableB with
      | false =>
          obtain ⟨e, he⟩ := insertExercisesFrom_err db.nextWorkoutId exs 1
            { db with
              workouts := db.workouts ++ [⟨db.nextWorkoutId, d, t, now, now⟩],
              nextWorkoutId := db.nextWorkoutId + 1 } hall hstore
          refine Or.inl ⟨e, ?_⟩
          simp only [create_workout, e1, exc_bind_ok, htt, hd, e2, he, exc_bind_err]
      | true =>
          refine Or.inr ⟨t, exs, d, rfl, hexs, hstore, hd, ?_⟩
          rw [create_workout_ok db fs now t exs d hvb hstore htt hexs hd]
          rfl

/-- On a valid payload and a present id, `update_workout` either raises
(unbindable parameter) or succeeds with exactly the `updatedDB` state. -/
theorem update_found_reduce (now : String) {db : DB} {wid : Nat}
    {fs : List (String × Val)}
    (hvb : validPayloadB (.dict fs) = true)
    (hfound : (db.workouts.find? (fun w => w.id == wid)).isNone = false) :
    (∃ e, update_workout db wid (.dict fs) now = .error e) ∨
    (∃ t exs d, titleOf (.dict fs) = .ok t ∧ dget fs "exercises" = .list exs ∧
      exs.all exStorableB = true ∧
      parse_iso_date (dget fs "workout_date") = some d ∧
      update_workout db wid (.dict fs) now =
        .ok (true, updatedDB db wid t now d exs)) := by
  obtain ⟨hdate, exs, hexs, hne, hall⟩ := validPayload_shape hvb
  obtain ⟨d, hd⟩ := Option.isSome_iff_exists.mp hdate
  have hkd : fs.lookup "workout_date" = some (dget fs "workout_date") := by
    apply lookup_eq_dget_of_ne_null
    intro h0
    rw [h0] at hd
    simp [parse_iso_date] at hd
  have hke : fs.lookup "exercises" = some (.list exs) := by
    rw [← hexs]
    apply lookup_eq_dget_of_ne_null
    rw [hexs]
    exact fun h0 => Val.noConfusion h0
  have e1 : pyIndex (.dict fs) "workout_date" = .ok (dget fs "workout_date") := by
    simp [pyIndex, hkd]
  have e2 : pyIndex (.dict fs) "exercises" = .ok (.list exs) := by
    simp [pyIndex, hke]
  cases htt : titleOf (.dict fs) with
  | error err =>
      refine Or.inl ⟨err, ?_⟩
      rw [update_workout, if_neg (by simp [hfound])]
      simp only [e1, exc_bind_ok, htt, exc_bind_err]
  | ok t =>
      cases hstore : exs.all exStorableB with
      | false =>
          obtain ⟨e, he⟩ := insertExercisesFrom_err wid exs 1
            (cascadeDeleteExercises
              { db with
                workouts := db.workouts.map fun w =>
                  if w.id == wid then
                    { w with workout_date := d, title := t, updated_at := now }
                  else w } wid) hall hstore
          refine Or.inl ⟨e, ?_⟩
          rw [update_workout, if_neg (by simp [hfound])]
          simp only [e1, exc_bind_ok, htt, hd, e2, he, exc_bind_err]
      | true =>
          refine Or.inr ⟨t, exs, d, rfl, hexs, hstore, hd, ?_⟩
          rw [update_workout_ok db wid fs now t exs d hvb hstore htt hexs hd hfound]
          rfl

/-- Inversion of a successful `update_workout` on a valid payload: the
title normalization succeeded with some value `t`, the workout row was
rewritten in place with title `t`, and `get` afterwards shows title
`COALESCE(t, '')`, `updated_at = now` and exactly the payload's tree. -/
theorem update_ok_components {db : DB} {wid : Nat} {fs : List (String × Val)}
    {now : String} {db' : DB}
    (hwf : WF db) (hvb : validPayloadB (.dict fs) = true)
    (hu : update_workout db wid (.dict fs) now = .ok (true, db')) :
    ∃ t w₀ d, titleOf (.dict fs) = .ok t ∧
      parse_iso_date (dget fs "workout_date") = some d ∧
      db.workouts.find? (fun w => w.id == wid) = some w₀ ∧ w₀.id = wid ∧
      ({ w₀ with workout_date := d, title := t, updated_at := now } ∈ db'.workouts) ∧
      ∃ tree, get_workout db' wid = some tree ∧
        tree.title = t.getD "" ∧ tree.updated_at = now ∧
        tree.exercises.map stripEx = payloadPlain (.dict fs) := by
  by_cases hfound : (db.workouts.find? (fun w => w.id == wid)).isNone
  · rw [update_workout, if_pos (by simp [hfound])] at hu
    exact absurd (congrArg Prod.fst (Except.ok.inj hu)) (by simp)
  have hfound' : (db.workouts.find? (fun w => w.id == wid)).isNone = false := by
    simpa using hfound
  rcases update_found_reduce now hvb hfound' with ⟨e, herr⟩ |
    ⟨t, exs, d, htt, hexs, hstore, hd, hup⟩
  · rw [herr] at hu
    exact Except.noConfusion hu
  · rw [hup] at hu
    have hdb : db' = updatedDB db wid t now d exs :=
      (congrArg Prod.snd (Except.ok.inj hu)).symm
    subst hdb
    simp only [updatedDB]
    have hsome : (db.workouts.find? (fun w => w.id == wid)).isSome = true := by
        cases hcase : db.workouts.find? (fun w => w.id == wid) with
        | none => rw [hcase] at hfound'; simp at hfound'
        | some w => simp
    obtain ⟨w₀, hw₀⟩ := Option.isSome_iff_exists.mp hsome
    have hwid := List.find?_some hw₀
    have hfind2 : (db.workouts.map fun w => if w.id == wid then
        { w with workout_date := d, title := t, updated_at := now } else w).find?
          (fun x => x.id == wid) =
        some { w₀ with workout_date := d, title := t, updated_at := now } := by
      rw [find?_update_map db.workouts wid
        (fun w => { w with workout_date := d, title := t, updated_at := now })
        (fun w => rfl), hw₀]
      show some (if (w₀.id == wid) = true then
        { w₀ with workout_date := d, title := t, updated_at := now } else w₀) = _
      rw [if_pos hwid]
    have hget := get_after_insert
      { workouts := db.workouts.map fun w => if w.id == wid then
          { w with workout_date := d, title := t, updated_at := now } else w
        exercises := db.exercises.filter (fun e => !(e.workout_id == wid))
        sets := db.sets.filter (fun s =>
          !(((db.exercises.filter (fun e => e.workout_id == wid)).map
              (·.id)).contains s.exercise_id))
        nextWorkoutId := db.nextWorkoutId
        nextExerciseId := db.nextExerciseId
        nextSetId := db.nextSetId }
      wid { w₀ with workout_date := d, title := t, updated_at := now } exs
      db.nextWorkoutId (db.nextExerciseId + exs.length) (db.nextSetId + totalSets exs)
      hfind2
      (by intro e he
          have := (List.mem_filter.mp he).2
          simpa using this)
      (by intro s hs
          exact hwf.setlt s (List.mem_filter.mp hs).1)
    refine ⟨t, w₀, d, htt, hd, hw₀, by simpa using hwid, ?_, _, hget, rfl, rfl, ?_⟩
    · have hw₀mem := List.mem_of_find?_eq_some hw₀
      exact List.mem_map.mpr ⟨w₀, hw₀mem, by simp [hwid]⟩
    · rw [buildExs_strip]
      simp [payloadPlain, vget, hexs]

/-- Inversion of a successful `create_workout` on a valid payload. -/
theorem create_ok_inv {db : DB} {p : Val} {now : String} {wid : Nat} {db' : DB}
    (hvb : validPayloadB p = true)
    (hc : create_workout db p now = .ok (wid, db')) :
    ∃ fs t exs d, p = .dict fs ∧ titleOf (.dict fs) = .ok t ∧
      dget fs "exercises" = .list exs ∧ exs.all exStorableB = true ∧
      parse_iso_date (dget fs "workout_date") = some d ∧
      wid = db.nextWorkoutId ∧ db' = createdDB db t now d exs := by
  obtain ⟨fs, rfl⟩ := validPayload_dict hvb
  rcases create_reduce db now hvb with ⟨e, herr⟩ |
    ⟨t, exs, d, htt, hexs, hstore, hd, hok⟩
  · rw [herr] at hc
    exact Except.noConfusion hc
  · rw [hok] at hc
    have h2 := Except.ok.inj hc
    exact ⟨fs, t, exs, d, rfl, htt, hexs, hstore, hd, (congrArg Prod.fst h2).symm,
      (congrArg Prod.snd h2).symm⟩

/-- A successful `update_workout` on a valid payload either found nothing
(state unchanged) or rewrote the found workout. -/
theorem update_cases {db : DB} {wid : Nat} {p : Val} {now : String} {b : Bool}
    {db' : DB} (hvb : validPayloadB p = true)
    (hu : update_workout db wid p now = .ok (b, db')) :
    db' = db ∨ ∃ fs t exs d w₀, p = .dict fs ∧
      db.workouts.find? (fun w => w.id == wid) = some w₀ ∧
      db' = updatedDB db wid t now d exs := by
  obtain ⟨fs, rfl⟩ := validPayload_dict hvb
  by_cases hfound : (db.workouts.find? (fun w => w.id == wid)).isNone
  · rw [update_workout, if_pos (by simp [hfound])] at hu
    exact Or.inl (congrArg Prod.snd (Except.ok.inj hu)).symm
  have hfound' : (db.workouts.find? (fun w => w.id == wid)).isNone = false := by
    simpa using hfound
  have hsome : (db.workouts.find? (fun w => w.id == wid)).isSome = true := by
    cases hcase : db.workouts.find? (fun w => w.id == wid) with
    | none => rw [hcase] at hfound'; simp at hfound'
    | some w => simp
  obtain ⟨w₀, hw₀⟩ := Option.isSome_iff_exists.mp hsome
  rcases update_found_reduce now hvb hfound' with ⟨e, herr⟩ |
    ⟨t, exs, d, htt, hexs, hstore, hd, hup⟩
  · rw [herr] at hu
    exact Except.noConfusion hu
  · rw [hup] at hu
    exact Or.inr ⟨fs, t, exs, d, w₀, rfl, hw₀,
      (congrArg Prod.snd (Except.ok.inj hu)).symm⟩

/-! ### The claims -/

/-- Storability of a dict payload transfers to its exercise list. -/
theorem storable_shape {fs : List (String × Val)} {exs : List Val}
    (hexs : dget fs "exercises" = .list exs)
    (hst : storableB (.dict fs) = true) : exs.all exStorableB = true := by
  have hv : vget (.dict fs) "exercises" = dget fs "exercises" := rfl
  simp only [storableB, hv, hexs] at hst
  exact hst

/-- C1 (amended): for every payload accepted by the validator whose `title`
is absent, a string, or falsy (the validator does not inspect `title`, and
`create` raises on a truthy non-string title), and whose sets the store can
bind (each coerced reps fits a signed 64-bit integer and no weight coerces
to NaN — otherwise `create` raises instead, see the counterexample),
`get(create(P))` returns a tree carrying the new id and `now` timestamps
whose exercises are P's in input order with 1-based `sort_order`, each with
P's sets in input order with 1-based `set_number` and the coerced stored
values. -/
theorem C1_roundtrip (db : DB) (p : Val) (now : String)
    (hwf : WF db) (hv : validate_workout_payload p = .ok [])
    (ht : titleOkB p = true) (hs : storableB p = true) :
    ∃ wid db' tree, create_workout db p now = .ok (wid, db') ∧
      get_workout db' wid = some tree ∧
      tree.id = wid ∧ tree.created_at = now ∧ tree.updated_at = now ∧
      tree.exercises.map stripEx = payloadPlain p := by
  have hvb := (validate_ok_nil_iff p).mp hv
  obtain ⟨fs, rfl⟩ := validPayload_dict hvb
  obtain ⟨hdate, exs, hexs, hne, hall⟩ := validPayload_shape hvb
  obtain ⟨d, hd⟩ := Option.isSome_iff_exists.mp hdate
  have hstore := storable_shape hexs hs
  have htt := titleOf_of_titleOk ht
  have hc := create_workout_ok db fs now (titleProj fs) exs d hvb hstore htt hexs hd
  have hfind : (db.workouts ++ [(⟨db.nextWorkoutId, d, titleProj fs, now, now⟩ :
      WorkoutRow)]).find? (fun x => x.id == db.nextWorkoutId) =
      some ⟨db.nextWorkoutId, d, titleProj fs, now, now⟩ :=
    find?_fresh _ _ _ (fun x hx => by have := hwf.wLt x hx; omega) rfl
  have hget := get_after_insert
    { db with workouts := db.workouts ++ [⟨db.nextWorkoutId, d, titleProj fs, now, now⟩] }
    db.nextWorkoutId ⟨db.nextWorkoutId, d, titleProj fs, now, now⟩ exs
    (db.nextWorkoutId + 1) (db.nextExerciseId + exs.length) (db.nextSetId + totalSets exs)
    hfind (fun e he => hwf.noex e he) (fun s hs => hwf.setlt s hs)
  refine ⟨db.nextWorkoutId, _, _, hc, hget, rfl, rfl, rfl, ?_⟩
  rw [buildExs_strip]
  simp [payloadPlain, vget, hexs]

/-- C1 counterexample to the claim as stated, in three validator-accepted
shapes that store nothing: a truthy non-string title makes `create` raise
AttributeError on `.strip()`; a `"nan"` weight validates (NaN is not
`< 0`) but sqlite3 binds it as NULL and the NOT NULL constraint raises
IntegrityError; reps `2^63` validates but cannot bind into SQLite's 64-bit
INTEGER and raises OverflowError. In each case `get(create(P))` returns no
tree at all. -/
theorem C1_counterexample :
    (validate_workout_payload titleIntPayload = .ok [] ∧
      create_workout DB.empty titleIntPayload "2024-01-15T10:00:00Z" =
        .error .attributeError) ∧
    (validate_workout_payload nanWeightPayload = .ok [] ∧
      titleOkB nanWeightPayload = true ∧
      create_workout DB.empty nanWeightPayload "2024-05-05T10:00:00Z" =
        .error .integrityError) ∧
    (validate_workout_payload hugeRepsPayload = .ok [] ∧
      titleOkB hugeRepsPayload = true ∧
      create_workout DB.empty hugeRepsPayload "2024-07-07T10:00:00Z" =
        .error .overflowError) := by
  refine ⟨⟨?_, ?_⟩, ⟨?_, ?_, ?_⟩, ⟨?_, ?_, ?_⟩⟩ <;> rfl

/-- C1 witness: the amended round trip at the spec's concrete scenario. -/
theorem C1_witness :
    ∃ wid db' tree,
      create_workout DB.empty goodPayload "2024-01-15T10:00:00Z" = .ok (wid, db') ∧
      get_workout db' wid = some tree ∧
      tree.id = wid ∧ tree.created_at = "2024-01-15T10:00:00Z" ∧
      tree.updated_at = "2024-01-15T10:00:00Z" ∧
      tree.exercises.map stripEx = payloadPlain goodPayload :=
  C1_roundtrip DB.empty goodPayload "2024-01-15T10:00:00Z"
    ⟨by decide, by decide, by decide, by decide, by decide, by decide,
     by decide, by decide⟩
    (by rfl) (by rfl) (by rfl)

/-- C2 (amended): soundness — a payload with an empty exercise list, an
exercise with an empty set list, a set whose reps coerce below 1, or a set
whose weight conversion completes with a value below 0 always draws at
least one error (when the weight is an int beyond the double range the
conversion never completes: the validator raises OverflowError instead,
see the counterexample) — and completeness — a payload satisfying every
stated constraint validates cleanly. -/
theorem C2_validator_sound_complete :
    (∀ fs errs, dget fs "exercises" = .list [] →
        validate_workout_payload (.dict fs) = .ok errs → errs ≠ []) ∧
    (∀ fs exs ef errs, dget fs "exercises" = .list exs → Val.dict ef ∈ exs →
        dget ef "sets" = .list [] →
        validate_workout_payload (.dict fs) = .ok errs → errs ≠ []) ∧
    (∀ fs exs ef ss sf i errs, dget fs "exercises" = .list exs →
        Val.dict ef ∈ exs → dget ef "sets" = .list ss → Val.dict sf ∈ ss →
        pyInt (dget sf "reps") = some i → i < 1 →
        validate_workout_payload (.dict fs) = .ok errs → errs ≠ []) ∧
    (∀ fs exs ef ss sf f errs, dget fs "exercises" = .list exs →
        Val.dict ef ∈ exs → dget ef "sets" = .list ss → Val.dict sf ∈ ss →
        pyFloat (dget sf "weight") = .ok f → f.ltZero = true →
        validate_workout_payload (.dict fs) = .ok errs → errs ≠ []) ∧
    (∀ p, validPayloadB p = true → validate_workout_payload p = .ok []) := by
  have hok : ∀ fs errs, validate_workout_payload (.dict fs) = .ok errs →
      errs = [] → validPayloadB (.dict fs) = true := by
    intro fs errs h h0
    subst h0
    exact (validate_ok_nil_iff _).mp h
  refine ⟨?_, ?_, ?_, ?_, fun p h => (validate_ok_nil_iff p).mpr h⟩
  · intro fs errs he hv h0
    have hvb := hok fs errs hv h0
    obtain ⟨_, exs, hexs, hne, _⟩ := validPayload_shape hvb
    rw [he] at hexs
    exact hne (Val.list.inj hexs).symm
  · intro fs exs ef errs he hmem hs hv h0
    have hvb := hok fs errs hv h0
    obtain ⟨_, exs', hexs, _, hall⟩ := validPayload_shape hvb
    rw [he] at hexs
    obtain rfl : exs' = exs := (Val.list.inj hexs).symm
    have hx := List.all_eq_true.mp hall _ hmem
    obtain ⟨ef', hef, _, ss, hss, hssne, _⟩ := validExercise_shape hx
    obtain rfl : ef = ef' := Val.dict.inj hef
    rw [hs] at hss
    exact hssne (Val.list.inj hss).symm
  · intro fs exs ef ss sf i errs he hmem hs hsmem hi hilt hv h0
    have hvb := hok fs errs hv h0
    obtain ⟨_, exs', hexs, _, hall⟩ := validPayload_shape hvb
    rw [he] at hexs
    obtain rfl : exs' = exs := (Val.list.inj hexs).symm
    have hx := List.all_eq_true.mp hall _ hmem
    obtain ⟨ef', hef, _, ss', hss, _, hssall⟩ := validExercise_shape hx
    obtain rfl : ef = ef' := Val.dict.inj hef
    rw [hs] at hss
    obtain rfl : ss' = ss := (Val.list.inj hss).symm
    have hsx := List.all_eq_true.mp hssall _ hsmem
    obtain ⟨sf', hsf, ⟨i', hi', hi1⟩, _⟩ := validSet_shape hsx
    obtain rfl : sf = sf' := Val.dict.inj hsf
    rw [hi] at hi'
    obtain rfl : i = i' := Option.some.inj hi'
    omega
  · intro fs exs ef ss sf f errs he hmem hs hsmem hq hqlt hv h0
    have hvb := hok fs errs hv h0
    obtain ⟨_, exs', hexs, _, hall⟩ := validPayload_shape hvb
    rw [he] at hexs
    obtain rfl : exs' = exs := (Val.list.inj hexs).symm
    have hx := List.all_eq_true.mp hall _ hmem
    obtain ⟨ef', hef, _, ss', hss, _, hssall⟩ := validExercise_shape hx
    obtain rfl : ef = ef' := Val.dict.inj hef
    rw [hs] at hss
    obtain rfl : ss' = ss := (Val.list.inj hss).symm
    have hsx := List.all_eq_true.mp hssall _ hsmem
    obtain ⟨sf', hsf, _, f', hq', hq0⟩ := validSet_shape hsx
    obtain rfl : sf = sf' := Val.dict.inj hsf
    rw [hq] at hq'
    obtain rfl : f = f' := Except.ok.inj hq'
    rw [hqlt] at hq0
    exact Bool.noConfusion hq0

/-- C2 witness: the soundness branches at concrete bad payloads, and
completeness at the spec's concrete good payload. -/
theorem C2_witness :
    (validate_workout_payload
        (.dict [("workout_date", .str "2024-01-15"), ("exercises", .list [])]) ≠ .ok []) ∧
    (validate_workout_payload
        (.dict [("workout_date", .str "2024-01-15"),
                ("exercises", .list [.dict [("name", .str "Squat"),
                  ("sets", .list [])]])]) ≠ .ok []) ∧
    (validate_workout_payload
        (.dict [("workout_date", .str "2024-01-15"),
                ("exercises", .list [.dict [("name", .str "Squat"),
                  ("sets", .list [.dict [("reps", .int 0), ("weight", .int 10)]])]])]) ≠
        .ok []) ∧
    (validate_workout_payload
        (.dict [("workout_date", .str "2024-01-15"),
                ("exercises", .list [.dict [("name", .str "Squat"),
                  ("sets", .list [.dict [("reps", .int 5),
                    ("weight", .int (-1))]])]])]) ≠ .ok []) ∧
    validate_workout_payload goodPayload = .ok [] := by
  refine ⟨?_, ?_, ?_, ?_, ?_⟩
  · intro h
    exact C2_validator_sound_complete.1 _ [] (by rfl) h rfl
  · intro h
    exact C2_validator_sound_complete.2.1 _
      [.dict [("name", .str "Squat"), ("sets", .list [])]]
      [("name", .str "Squat"), ("sets", .list [])] []
      (by rfl) (by simp) (by rfl) h rfl
  · intro h
    exact C2_validator_sound_complete.2.2.1 _
      [.dict [("name", .str "Squat"),
        ("sets", .list [.dict [("reps", .int 0), ("weight", .int 10)]])]]
      [("name", .str "Squat"),
        ("sets", .list [.dict [("reps", .int 0), ("weight", .int 10)]])]
      [.dict [("reps", .int 0), ("weight", .int 10)]]
      [("reps", .int 0), ("weight", .int 10)] 0 []
      (by rfl) (by simp) (by rfl) (by simp) (by rfl) (by decide) h rfl
  · intro h
    exact C2_validator_sound_complete.2.2.2.1 _
      [.dict [("name", .str "Squat"),
        ("sets", .list [.dict [("reps", .int 5), ("weight", .int (-1))]])]]
      [("name", .str "Squat"),
        ("sets", .list [.dict [("reps", .int 5), ("weight", .int (-1))]])]
      [.dict [("reps", .int 5), ("weight", .int (-1))]]
      [("reps", .int 5), ("weight", .int (-1))] (PyFloat.finite (-1)) []
      (by rfl) (by simp) (by rfl) (by simp) (by rfl) (by decide) h rfl
  · exact C2_validator_sound_complete.2.2.2.2 goodPayload (by rfl)

/-- C2 counterexample to the claim as stated: the weight `-(10^400)` is an
int below 0, so the claim demands a weight error string — but `float()` of
an int beyond the double range raises OverflowError, which the validator's
`except (TypeError, ValueError)` does not catch: the validator raises
instead of returning any error list. -/
theorem C2_counterexample :
    validate_workout_payload negHugePayload = .error .overflowError ∧
      pyFloat (.int (-(10 ^ 400))) = .error .overflowError := by
  constructor <;> rfl

/-- C3: a successful `update(id, P2)` on a validated payload replaces the
tree wholesale: `get(id)` afterwards shows exactly P2's exercises and sets
(1-based `sort_order`/`set_number`, coerced stored values) with
`updated_at` refreshed, and no exercise or set row of the workout's prior
state survives — including when P2 has fewer exercises than before. -/
theorem C3_update_replaces (db : DB) (wid : Nat) (p : Val) (now : String) (db' : DB)
    (hwf : WF db) (hv : validate_workout_payload p = .ok [])
    (hu : update_workout db wid p now = .ok (true, db')) :
    (∃ tree, get_workout db' wid = some tree ∧
      tree.exercises.map stripEx = payloadPlain p ∧ tree.updated_at = now) ∧
    (∀ e ∈ db.exercises, e.workout_id = wid → e ∉ db'.exercises) ∧
    (∀ s ∈ db.sets,
      (∃ e ∈ db.exercises, e.workout_id = wid ∧ s.exercise_id = e.id) →
        s ∉ db'.sets) := by
  have hvb := (validate_ok_nil_iff p).mp hv
  obtain ⟨fs, rfl⟩ := validPayload_dict hvb
  by_cases hfound : (db.workouts.find? (fun w => w.id == wid)).isNone
  · rw [update_workout, if_pos (by simp [hfound])] at hu
    exact absurd (congrArg Prod.fst (Except.ok.inj hu)) (by simp)
  have hfound' : (db.workouts.find? (fun w => w.id == wid)).isNone = false := by
    simpa using hfound
  rcases update_found_reduce now hvb hfound' with ⟨e, herr⟩ |
    ⟨t, exs, d, htt, hexs, hstore, hd, hup⟩
  · rw [herr] at hu
    exact Except.noConfusion hu
  · rw [hup] at hu
    have hdb : db' = updatedDB db wid t now d exs :=
      (congrArg Prod.snd (Except.ok.inj hu)).symm
    subst hdb
    simp only [updatedDB]
    have hsome : (db.workouts.find? (fun w => w.id == wid)).isSome = true := by
        cases hcase : db.workouts.find? (fun w => w.id == wid) with
        | none => rw [hcase] at hfound'; simp at hfound'
        | some w => simp
    obtain ⟨w₀, hw₀⟩ := Option.isSome_iff_exists.mp hsome
    have hwid := List.find?_some hw₀
    have hfind2 : (db.workouts.map fun w => if w.id == wid then
        { w with workout_date := d, title := t, updated_at := now } else w).find?
          (fun x => x.id == wid) =
        some { w₀ with workout_date := d, title := t, updated_at := now } := by
      rw [find?_update_map db.workouts wid
        (fun w => { w with workout_date := d, title := t, updated_at := now })
        (fun w => rfl), hw₀]
      show some (if (w₀.id == wid) = true then
        { w₀ with workout_date := d, title := t, updated_at := now } else w₀) = _
      rw [if_pos hwid]
    have hget := get_after_insert
      { workouts := db.workouts.map fun w => if w.id == wid then
          { w with workout_date := d, title := t, updated_at := now } else w
        exercises := db.exercises.filter (fun e => !(e.workout_id == wid))
        sets := db.sets.filter (fun s =>
          !(((db.exercises.filter (fun e => e.workout_id == wid)).map
              (·.id)).contains s.exercise_id))
        nextWorkoutId := db.nextWorkoutId
        nextExerciseId := db.nextExerciseId
        nextSetId := db.nextSetId }
      wid { w₀ with workout_date := d, title := t, updated_at := now } exs
      db.nextWorkoutId (db.nextExerciseId + exs.length) (db.nextSetId + totalSets exs)
      hfind2
      (by intro e he
          have := (List.mem_filter.mp he).2
          simpa using this)
      (by intro s hs
          exact hwf.setlt s (List.mem_filter.mp hs).1)
    refine ⟨⟨_, hget, ?_, rfl⟩, ?_, ?_⟩
    · rw [buildExs_strip]
      simp [payloadPlain, vget, hexs]
    · intro e he hwid2 hmem
      rcases List.mem_append.mp hmem with hl | hr
      · have := (List.mem_filter.mp hl).2
        simp [hwid2] at this
      · obtain ⟨pr, hpr, hpre⟩ := List.mem_map.mp hr
        have h3 := (buildExs_mem wid exs 1 db.nextExerciseId db.nextSetId pr hpr).2.2.1
        have h4 := hwf.eLt e he
        rw [hpre] at h3
        omega
    · rintro s hs ⟨e, he, hwid2, hsid⟩ hmem
      rcases List.mem_append.mp hmem with hl | hr
      · have hnc := (List.mem_filter.mp hl).2
        have hmm : s.exercise_id ∈
            (db.exercises.filter (fun e => e.workout_id == wid)).map (·.id) :=
          List.mem_map.mpr ⟨e, List.mem_filter.mpr ⟨he, by simp [hwid2]⟩, hsid.symm⟩
        have hcont : ((db.exercises.filter (fun e => e.workout_id == wid)).map
            (·.id)).contains s.exercise_id = true :=
          List.elem_eq_true_of_mem hmm
        rw [hcont] at hnc
        simp at hnc
      · have h3 := buildExs_flat_bound wid exs 1 db.nextExerciseId db.nextSetId s hr
        have h4 := hwf.eLt e he
        omega

/-- C3 witness: replacing the one-exercise workout of `db1` with
`goodPayload2` (same count here; the theorem itself is quantified over
payloads of any smaller size) leaves exactly the new content. -/
theorem C3_witness :
    ∃ db' tree,
      update_workout db1 1 goodPayload2 "2024-02-02T10:00:00Z" = .ok (true, db') ∧
      get_workout db' 1 = some tree ∧
      tree.exercises.map stripEx = payloadPlain goodPayload2 ∧
      tree.updated_at = "2024-02-02T10:00:00Z" := by
  have hu : ∃ db', update_workout db1 1 goodPayload2 "2024-02-02T10:00:00Z" =
      .ok (true, db') := ⟨_, rfl⟩
  obtain ⟨db', hdb'⟩ := hu
  obtain ⟨⟨tree, h1, h2, h3⟩, _, _⟩ :=
    C3_update_replaces db1 1 goodPayload2 "2024-02-02T10:00:00Z" db'
      ⟨by decide, by decide, by decide, by decide, by decide, by decide,
       by decide, by decide⟩
      (by rfl) hdb'
  exact ⟨db', tree, hdb', h1, h2, h3⟩

/-- C4 (amended): on a dict payload — whatever the field values — the
validator either returns normally with a list of error strings or raises
OverflowError, the one exception its `except (TypeError, ValueError)`
clause lets through (`float()` of an int weight at or beyond the double
range); on a non-dict payload the first `payload.get(...)` raises
AttributeError (see the counterexample for both raising shapes). -/
theorem C4_validator_total :
    (∀ fs, (∃ errs, validate_workout_payload (.dict fs) = .ok errs) ∨
        validate_workout_payload (.dict fs) = .error .overflowError) ∧
      ∀ p, (∀ fs, p ≠ .dict fs) →
        validate_workout_payload p = .error .attributeError := by
  constructor
  · intro fs
    cases h : validateD fs with
    | ok errs => exact Or.inl ⟨errs, h⟩
    | error e =>
        have he := validateD_err h
        subst he
        exact Or.inr h
  · intro p hp
    cases p <;> first | rfl | exact absurd rfl (hp _)

/-- C4 counterexample to the claim as stated: a non-dict payload (a JSON
list) makes `validate_workout_payload` raise AttributeError instead of
returning an error list, and even a dict payload can make it raise — an
int weight of `10^400` raises OverflowError out of `float()`. -/
theorem C4_counterexample :
    validate_workout_payload (.list [.int 1]) = .error .attributeError ∧
      validate_workout_payload hugeIntPayload = .error .overflowError := by
  constructor <;> rfl

/-- C4 witness: a dict payload with wrong-typed fields yields a plain
error list (or the overflow escape, settled by the theorem), and a
concrete non-dict payload raises. -/
theorem C4_witness :
    ((∃ errs, validate_workout_payload
        (.dict [("workout_date", .int 7), ("exercises", .str "nope")]) = .ok errs) ∨
      validate_workout_payload
        (.dict [("workout_date", .int 7), ("exercises", .str "nope")]) =
          .error .overflowError) ∧
      validate_workout_payload (.str "just text") = .error .attributeError :=
  ⟨C4_validator_total.1 _,
   C4_validator_total.2 (.str "just text") (fun _ h => Val.noConfusion h)⟩

/-- C5: updating a non-existent id returns `false` and leaves the entire
store state untouched. -/
theorem C5_update_missing (db : DB) (wid : Nat) (p : Val) (now : String)
    (hnf : ∀ w ∈ db.workouts, w.id ≠ wid)
    (hv : validate_workout_payload p = .ok []) :
    update_workout db wid p now = .ok (false, db) := by
  have hfind : db.workouts.find? (fun w => w.id == wid) = none := by
    rw [List.find?_eq_none]
    intro w hw
    simpa using hnf w hw
  simp [update_workout, hfind]

/-- C5 witness: the spec's concrete scenario `update(999, validPayload)`
on a store holding one workout. -/
theorem C5_witness :
    update_workout db1 999 goodPayload2 "2024-02-02T10:00:00Z" = .ok (false, db1) :=
  C5_update_missing db1 999 goodPayload2 "2024-02-02T10:00:00Z"
    (by decide) (by rfl)

/-- C8 (amended): when `exercises` is missing, not a list, or empty, the
validator short-circuits: the result is exactly the single exercise error,
preceded only by the date error when the date is also invalid, and no
deeper check runs; with a valid date the result is exactly the one-element
list of the concrete scenario. -/
theorem C8_short_circuit :
    (∀ fs, noExercises fs = true →
        validate_workout_payload (.dict fs) =
          .ok ((if (parse_iso_date (dget fs "workout_date")).isSome then ([] : List String)
                else ["Workout date is required (YYYY-MM-DD)."]) ++
              ["At least one exercise is required."])) ∧
      validate_workout_payload
          (.dict [("workout_date", .str "2024-01-15"), ("exercises", .list [])]) =
        .ok ["At least one exercise is required."] := by
  constructor
  · intro fs hno
    simp only [noExercises] at hno
    simp only [validate_workout_payload, validateD]
    cases he : dget fs "exercises" with
    | list exs =>
        rw [he] at hno
        simp at hno
        subst hno
        simp
    | _ => simp
  · rfl

/-- C8 counterexample to the claim as stated: with `exercises` missing and
the date also invalid, the result has two errors, not "a single error". -/
theorem C8_counterexample :
    validate_workout_payload (.dict []) =
      .ok ["Workout date is required (YYYY-MM-DD).",
           "At least one exercise is required."] ∧
      ¬∃ e, validate_workout_payload (.dict []) = .ok [e] := by
  constructor
  · rfl
  · rintro ⟨e, h⟩
    have h0 : validate_workout_payload (.dict []) =
        .ok ["Workout date is required (YYYY-MM-DD).",
             "At least one exercise is required."] := rfl
    have h2 := Except.ok.inj (h0.symm.trans h)
    simp at h2

/-- C8 witness: the short-circuit equality at a non-list `exercises` with a
valid date, and the concrete scenario via the theorem itself. -/
theorem C8_witness :
    validate_workout_payload
        (.dict [("workout_date", .str "2024-01-15"), ("exercises", .int 3)]) =
      .ok ["At least one exercise is required."] := by
  have h := C8_short_circuit.1
    [("workout_date", .str "2024-01-15"), ("exercises", .int 3)] (by rfl)
  simpa using h

theorem dedup_const_append (a : Nat) (l₁ l₂ : List Nat)
    (h2 : ∀ x ∈ l₁, x = a) (h3 : a ∉ l₂) (h1 : l₁ ≠ []) :
    (l₁ ++ l₂).dedup = a :: l₂.dedup := by
  induction l₁ with
  | nil => exact absurd rfl h1
  | cons x t ih =>
      obtain rfl : x = a := h2 x (by simp)
      by_cases ht : t = []
      · subst ht
        simpa using List.dedup_cons_of_not_mem h3
      · have hyt : x ∈ t := by
          cases t with
          | nil => exact absurd rfl ht
          | cons y t' =>
              have hy : y = x := h2 y (by simp)
              rw [← hy]
              simp
        have hmem : x ∈ t ++ l₂ := List.mem_append_left _ hyt
        rw [List.cons_append, List.dedup_cons_of_mem hmem]
        exact ih (fun z hz => h2 z (List.mem_cons_of_mem _ hz)) ht

theorem snd_map_length (eid : Nat) (l : List SetRow) :
    ((l.map (fun s => (some eid, some s.id))).filterMap
      (Prod.snd (α := Option Nat))).length = l.length := by
  induction l with
  | nil => rfl
  | cons s rest ih => simpa using ih

theorem fst_map_length (eid : Nat) (l : List SetRow) :
    ((l.map (fun s => (some eid, some s.id))).filterMap
      (Prod.fst (β := Option Nat))).length = l.length := by
  induction l with
  | nil => rfl
  | cons s rest ih => simpa using ih

theorem joinRows_fst_mem (db : DB) (es : List ExerciseRow) :
    ∀ x ∈ (es.flatMap (fun e =>
        if (db.sets.filter (fun s => s.exercise_id == e.id)).isEmpty then
          [(some e.id, none)]
        else (db.sets.filter (fun s => s.exercise_id == e.id)).map
          (fun s => (some e.id, some s.id)))).filterMap Prod.fst,
      x ∈ es.map (·.id) := by
  intro x hx
  obtain ⟨pair, hpair, hfst⟩ := List.mem_filterMap.mp hx
  obtain ⟨e, he, hin⟩ := List.mem_flatMap.mp hpair
  have hx2 : x = e.id := by
    by_cases hh : (db.sets.filter (fun s => s.exercise_id == e.id)).isEmpty
    · rw [if_pos hh] at hin
      simp only [List.mem_singleton] at hin
      subst hin
      exact (Option.some.inj hfst).symm
    · rw [if_neg hh] at hin
      obtain ⟨s, _, hs⟩ := List.mem_map.mp hin
      rw [← hs] at hfst
      exact (Option.some.inj hfst).symm
  rw [hx2]
  exact List.mem_map_of_mem _ he

theorem joinRows_fst_dedup (db : DB) (es : List ExerciseRow)
    (hnd : (es.map (·.id)).Nodup) :
    ((es.flatMap (fun e =>
        if (db.sets.filter (fun s => s.exercise_id == e.id)).isEmpty then
          [(some e.id, none)]
        else (db.sets.filter (fun s => s.exercise_id == e.id)).map
          (fun s => (some e.id, some s.id)))).filterMap Prod.fst).dedup =
      es.map (·.id) := by
  induction es with
  | nil => simp
  | cons e rest ih =>
      simp only [List.map_cons, List.nodup_cons] at hnd
      simp only [List.flatMap_cons, List.filterMap_append]
      rw [dedup_const_append e.id _ _ ?_ ?_ ?_]
      · rw [ih hnd.2, List.map_cons]
      · intro x hx
        by_cases hh : (db.sets.filter (fun s => s.exercise_id == e.id)).isEmpty
        · rw [if_pos hh] at hx
          simpa using hx
        · rw [if_neg hh] at hx
          obtain ⟨pair, hpair, hfst⟩ := List.mem_filterMap.mp hx
          obtain ⟨s, _, hs⟩ := List.mem_map.mp hpair
          rw [← hs] at hfst
          exact (Option.some.inj hfst).symm
      · intro hmem
        exact hnd.1 (joinRows_fst_mem db rest e.id hmem)
      · by_cases hh : (db.sets.filter (fun s => s.exercise_id == e.id)).isEmpty
        · rw [if_pos hh]
          simp
        · rw [if_neg hh]
          intro h0
          have hlen := congrArg List.length h0
          rw [fst_map_length] at hlen
          simp only [List.length_nil, List.length_eq_zero] at hlen
          rw [hlen] at hh
          simp at hh

theorem joinRows_snd_length (db : DB) (es : List ExerciseRow) :
    ((es.flatMap (fun e =>
        if (db.sets.filter (fun s => s.exercise_id == e.id)).isEmpty then
          [(some e.id, none)]
        else (db.sets.filter (fun s => s.exercise_id == e.id)).map
          (fun s => (some e.id, some s.id)))).filterMap Prod.snd).length =
      (es.map (fun e =>
        (db.sets.filter (fun s => s.exercise_id == e.id)).length)).sum := by
  induction es with
  | nil => simp
  | cons e rest ih =>
      simp only [List.flatMap_cons, List.filterMap_append, List.length_append,
        List.map_cons, List.sum_cons, ih]
      congr 1
      by_cases hh : (db.sets.filter (fun s => s.exercise_id == e.id)).isEmpty
      · rw [if_pos hh]
        simp [List.isEmpty_iff.mp hh]
      · rw [if_neg hh]
        exact snd_map_length e.id _

/-- C7: `list()` returns one summary per stored workout — workouts with no
exercises included, with zero counts by the formulas below — sorted by
date descending then id descending, each summary carrying the scalar
columns, `COUNT(DISTINCT e.id)` and `COUNT(s.id)`. -/
theorem C7_list_ordering (db : DB) (hwf : WF db) :
    (list_workouts db).Pairwise listOrd ∧
    (list_workouts db).length = db.workouts.length ∧
    ∀ w ∈ db.workouts, ∃ sm ∈ list_workouts db,
      sm.id = w.id ∧ sm.workout_date = w.workout_date ∧
      sm.title = w.title.getD "" ∧
      sm.created_at = w.created_at ∧ sm.updated_at = w.updated_at ∧
      sm.exercise_count =
        (db.exercises.filter (fun e => e.workout_id == w.id)).length ∧
      sm.set_count = ((db.exercises.filter (fun e => e.workout_id == w.id)).map
        (fun e => (db.sets.filter (fun s => s.exercise_id == e.id)).length)).sum := by
  have hperm := List.perm_insertionSort sumLe (db.workouts.map (summaryOf db))
  refine ⟨?_, ?_, ?_⟩
  · have hsorted : (list_workouts db).Pairwise sumLe :=
      List.sorted_insertionSort sumLe _
    have hids : ((list_workouts db).map (fun sm => sm.id)).Nodup := by
      have h1 : List.Perm ((list_workouts db).map (fun sm => sm.id))
          ((db.workouts.map (summaryOf db)).map (fun sm => sm.id)) :=
        hperm.map _
      have h2 : (db.workouts.map (summaryOf db)).map (fun sm => sm.id) =
          db.workouts.map (fun w => w.id) := by
        rw [List.map_map]
        rfl
      rw [h2] at h1
      exact h1.nodup_iff.mpr hwf.wNodup
    have hpne : (list_workouts db).Pairwise (fun a b => a.id ≠ b.id) := by
      have h3 : ((list_workouts db).map (fun sm => sm.id)).Pairwise (· ≠ ·) := hids
      exact List.pairwise_map.mp h3
    refine (hsorted.and hpne).imp ?_
    rintro a b ⟨hle, hne⟩
    rcases hle with h | ⟨h, h'⟩
    · exact Or.inl h
    · exact Or.inr ⟨h, lt_of_le_of_ne h' (Ne.symm hne)⟩
  · unfold list_workouts
    rw [hperm.length_eq, List.length_map]
  · intro w hw
    refine ⟨summaryOf db w, hperm.mem_iff.mpr (List.mem_map_of_mem _ hw),
      rfl, rfl, rfl, rfl, rfl, ?_, ?_⟩
    · show ((joinRows db w.id).filterMap Prod.fst).dedup.length = _
      unfold joinRows
      by_cases hes : (db.exercises.filter (fun e => e.workout_id == w.id)).isEmpty
      · rw [if_pos hes]
        simp [List.isEmpty_iff.mp hes]
      · rw [if_neg hes]
        have hnd : ((db.exercises.filter
            (fun e => e.workout_id == w.id)).map (·.id)).Nodup :=
          ((List.filter_sublist db.exercises).map (fun x => x.id)).nodup hwf.eNodup
        rw [joinRows_fst_dedup db _ hnd, List.length_map]
    · show ((joinRows db w.id).filterMap Prod.snd).length = _
      unfold joinRows
      by_cases hes : (db.exercises.filter (fun e => e.workout_id == w.id)).isEmpty
      · rw [if_pos hes]
        simp [List.isEmpty_iff.mp hes]
      · rw [if_neg hes]
        exact joinRows_snd_length db _

/-- C7 witness: the two-workout store `db2` (dates 2024-01-15 and
2024-02-02) lists both workouts most-recent-first. -/
theorem C7_witness :
    (list_workouts db2).Pairwise listOrd ∧
      (list_workouts db2).length = db2.workouts.length := by
  have h := C7_list_ordering db2
    ⟨by decide, by decide, by decide, by decide, by decide, by decide,
     by decide, by decide⟩
  exact ⟨h.1, h.2.1⟩

/-- C6: after a successful `delete(id)`, `get(id)` is not-found and no
exercise row of that workout nor set row of those exercises remains; and
every store state reachable through the API is orphan-free (each exercise
has its workout, each set its exercise). -/
theorem C6_delete_cascade :
    (∀ db wid db', delete_workout db wid = (true, db') →
        get_workout db' wid = none ∧
        (∀ e ∈ db'.exercises, e.workout_id ≠ wid) ∧
        (∀ s ∈ db'.sets, ∀ e ∈ db.exercises, e.workout_id = wid →
          s.exercise_id ≠ e.id)) ∧
    (∀ db, Reachable db →
        (∀ e ∈ db.exercises, ∃ w ∈ db.workouts, w.id = e.workout_id) ∧
        (∀ s ∈ db.sets, ∃ e ∈ db.exercises, e.id = s.exercise_id)) := by
  constructor
  · intro db wid db' hdel
    have hdb : db' = (delete_workout db wid).2 := (congrArg Prod.snd hdel).symm
    subst hdb
    refine ⟨?_, ?_, ?_⟩
    · have hfind : (db.workouts.filter (fun w => !(w.id == wid))).find?
          (fun w => w.id == wid) = none := by
        rw [List.find?_eq_none]
        intro w hw2
        have := (List.mem_filter.mp hw2).2
        simpa using this
      unfold get_workout
      rw [show (delete_workout db wid).2.workouts =
        db.workouts.filter (fun w => !(w.id == wid)) from rfl, hfind]
    · intro e he
      have he2 : e ∈ db.exercises.filter (fun e => !(e.workout_id == wid)) := he
      have := (List.mem_filter.mp he2).2
      simpa using this
    · intro s hs e he hwide
      have hs2 : s ∈ db.sets.filter (fun s =>
          !(((db.exercises.filter (fun e => e.workout_id == wid)).map
              (·.id)).contains s.exercise_id)) := hs
      have hnc := (List.mem_filter.mp hs2).2
      intro heq
      have hmm : s.exercise_id ∈
          (db.exercises.filter (fun e => e.workout_id == wid)).map (·.id) :=
        List.mem_map.mpr ⟨e, List.mem_filter.mpr ⟨he, by simp [hwide]⟩, heq.symm⟩
      have hcont : ((db.exercises.filter (fun e => e.workout_id == wid)).map
          (·.id)).contains s.exercise_id = true := List.elem_eq_true_of_mem hmm
      rw [hcont] at hnc
      simp at hnc
  · intro db hr
    induction hr with
    | init => exact ⟨by simp [DB.empty], by simp [DB.empty]⟩
    | @create db p now wid db' hr0 hv0 hc0 ih =>
        have hvb := (validate_ok_nil_iff _).mp hv0
        obtain ⟨fs, t, exs, d, rfl, htt, hexs, hstore, hd, hwide, hdb⟩ :=
          create_ok_inv hvb hc0
        subst hdb
        constructor
        · intro e he
          simp only [createdDB] at he ⊢
          rcases List.mem_append.mp he with hl | hrr
          · obtain ⟨w, hw, hid⟩ := ih.1 e hl
            exact ⟨w, List.mem_append_left _ hw, hid⟩
          · obtain ⟨pr, hpr, hpre⟩ := List.mem_map.mp hrr
            have h1 := (buildExs_mem _ exs 1 _ _ pr hpr).1
            refine ⟨⟨db.nextWorkoutId, d, t, now, now⟩,
              List.mem_append_right _ (List.mem_singleton.mpr rfl), ?_⟩
            rw [← hpre, h1]
        · intro s hsm
          simp only [createdDB] at hsm ⊢
          rcases List.mem_append.mp hsm with hl | hrr
          · obtain ⟨e, he, hid⟩ := ih.2 s hl
            exact ⟨e, List.mem_append_left _ he, hid⟩
          · obtain ⟨pr, hpr, hin⟩ := List.mem_flatMap.mp hrr
            have h4 := (buildExs_mem _ exs 1 _ _ pr hpr).2.2.2 s hin
            exact ⟨pr.1, List.mem_append_right _ (List.mem_map_of_mem Prod.fst hpr),
              h4.symm⟩
    | @update db wid p now b db' hr0 hv0 hu0 ih =>
        have hvb := (validate_ok_nil_iff _).mp hv0
        rcases update_cases hvb hu0 with rfl | ⟨fs, t, exs, d, w₀, rfl, hw₀, hdb⟩
        · exact ih
        · subst hdb
          have hwidq := List.find?_some hw₀
          have hw₀mem := List.mem_of_find?_eq_some hw₀
          constructor
          · intro e he
            simp only [updatedDB] at he ⊢
            rcases List.mem_append.mp he with hl | hrr
            · obtain ⟨w, hw, hid⟩ := ih.1 e (List.mem_filter.mp hl).1
              refine ⟨if w.id == wid then
                  { w with workout_date := d, title := t, updated_at := now }
                else w, List.mem_map_of_mem _ hw, ?_⟩
              split <;> simp [hid]
            · obtain ⟨pr, hpr, hpre⟩ := List.mem_map.mp hrr
              have h1 := (buildExs_mem wid exs 1 _ _ pr hpr).1
              refine ⟨{ w₀ with workout_date := d, title := t, updated_at := now },
                List.mem_map.mpr ⟨w₀, hw₀mem, by simp [hwidq]⟩, ?_⟩
              show w₀.id = e.workout_id
              rw [← hpre, h1]
              simpa using hwidq
          · intro s hsm
            simp only [updatedDB] at hsm ⊢
            rcases List.mem_append.mp hsm with hl | hrr
            · have hsmem := (List.mem_filter.mp hl).1
              have hnc := (List.mem_filter.mp hl).2
              obtain ⟨e, he, hid⟩ := ih.2 s hsmem
              by_cases hew : (e.workout_id == wid) = true
              · exfalso
                have hmm : s.exercise_id ∈
                    (db.exercises.filter (fun e => e.workout_id == wid)).map (·.id) :=
                  List.mem_map.mpr ⟨e, List.mem_filter.mpr ⟨he, hew⟩, hid⟩
                have hcont : ((db.exercises.filter
                    (fun e => e.workout_id == wid)).map
                    (·.id)).contains s.exercise_id = true :=
                  List.elem_eq_true_of_mem hmm
                rw [hcont] at hnc
                simp at hnc
              · exact ⟨e, List.mem_append_left _
                  (List.mem_filter.mpr ⟨he, by simpa using hew⟩), hid⟩
            · obtain ⟨pr, hpr, hin⟩ := List.mem_flatMap.mp hrr
              have h4 := (buildExs_mem wid exs 1 _ _ pr hpr).2.2.2 s hin
              exact ⟨pr.1, List.mem_append_right _
                (List.mem_map_of_mem Prod.fst hpr), h4.symm⟩
    | @delete db wid hr0 ih =>
        constructor
        · intro e he
          have he2 : e ∈ db.exercises.filter (fun e => !(e.workout_id == wid)) := he
          have hpred := (List.mem_filter.mp he2).2
          obtain ⟨w, hw, hid⟩ := ih.1 e (List.mem_filter.mp he2).1
          refine ⟨w, ?_, hid⟩
          show w ∈ db.workouts.filter (fun w => !(w.id == wid))
          refine List.mem_filter.mpr ⟨hw, ?_⟩
          rw [hid]
          exact hpred
        · intro s hsm
          have hs2 : s ∈ db.sets.filter (fun s =>
              !(((db.exercises.filter (fun e => e.workout_id == wid)).map
                  (·.id)).contains s.exercise_id)) := hsm
          have hnc := (List.mem_filter.mp hs2).2
          obtain ⟨e, he, hid⟩ := ih.2 s (List.mem_filter.mp hs2).1
          by_cases hew : (e.workout_id == wid) = true
          · exfalso
            have hmm : s.exercise_id ∈
                (db.exercises.filter (fun e => e.workout_id == wid)).map (·.id) :=
              List.mem_map.mpr ⟨e, List.mem_filter.mpr ⟨he, hew⟩, hid⟩
            have hcont : ((db.exercises.filter (fun e => e.workout_id == wid)).map
                (·.id)).contains s.exercise_id = true :=
              List.elem_eq_true_of_mem hmm
            rw [hcont] at hnc
            simp at hnc
          · refine ⟨e, ?_, hid⟩
            show e ∈ db.exercises.filter (fun e => !(e.workout_id == wid))
            exact List.mem_filter.mpr ⟨he, by simpa using hew⟩

/-- C6 witness: deleting the single workout of `db1` leaves no trace of it,
and the reachable state `db1` (empty store, then one validated create) is
orphan-free. -/
theorem C6_witness :
    (get_workout (delete_workout db1 1).2 1 = none ∧
      ∀ e ∈ (delete_workout db1 1).2.exercises, e.workout_id ≠ 1) ∧
    ∀ e ∈ db1.exercises, ∃ w ∈ db1.workouts, w.id = e.workout_id := by
  have h1 := C6_delete_cascade.1 db1 1 (delete_workout db1 1).2 (by rfl)
  have h2 := C6_delete_cascade.2 db1
    (@Reachable.create DB.empty goodPayload "2024-01-15T10:00:00Z" 1 db1
      Reachable.init (by rfl) (by rfl))
  exact ⟨⟨h1.1, h1.2.1⟩, h2.1⟩

/-- C9 (amended): a missing, empty or whitespace-only title is stored as
NULL by both `create` and `update`, and read back as the empty string by
`get` and `list`; a non-blank string title is stored trimmed. On the create
side this requires the payload's sets to be bindable (64-bit reps, no NaN
weight) — otherwise `create` raises and stores nothing, whatever the
title (see the counterexample); the update side is stated of successful
updates and needs no such proviso. -/
theorem C9_title_normalization :
    (∀ db p now fs, WF db → validate_workout_payload p = .ok [] →
        storableB p = true → p = .dict fs →
        blankTitle (dget fs "title") →
        ∃ wid db' tree sm, create_workout db p now = .ok (wid, db') ∧
          (∃ w ∈ db'.workouts, w.id = wid ∧ w.title = none) ∧
          get_workout db' wid = some tree ∧ tree.title = "" ∧
          sm ∈ list_workouts db' ∧ sm.id = wid ∧ sm.title = "") ∧
    (∀ db p now fs s, validate_workout_payload p = .ok [] →
        storableB p = true → p = .dict fs →
        dget fs "title" = .str s → pyStrip s ≠ "" →
        ∃ wid db', create_workout db p now = .ok (wid, db') ∧
          ∃ w ∈ db'.workouts, w.id = wid ∧ w.title = some (pyStrip s)) ∧
    (∀ db wid p now db' fs, WF db → validate_workout_payload p = .ok [] →
        p = .dict fs → blankTitle (dget fs "title") →
        update_workout db wid p now = .ok (true, db') →
        (∃ w ∈ db'.workouts, w.id = wid ∧ w.title = none) ∧
        ∃ tree, get_workout db' wid = some tree ∧ tree.title = "") ∧
    (∀ db wid p now db' fs s, WF db → validate_workout_payload p = .ok [] →
        p = .dict fs → dget fs "title" = .str s → pyStrip s ≠ "" →
        update_workout db wid p now = .ok (true, db') →
        ∃ w ∈ db'.workouts, w.id = wid ∧ w.title = some (pyStrip s)) := by
  refine ⟨?_, ?_, ?_, ?_⟩
  · intro db p now fs hwf hv hst hp hbt
    subst hp
    have hvb := (validate_ok_nil_iff _).mp hv
    obtain ⟨hdate, exs, hexs, hne, hall⟩ := validPayload_shape hvb
    obtain ⟨d, hd⟩ := Option.isSome_iff_exists.mp hdate
    have hstore := storable_shape hexs hst
    obtain ⟨htOk, htN⟩ := titleProj_blank hbt
    have htt := titleOf_of_titleOk htOk
    rw [htN] at htt
    have hc := create_workout_ok db fs now none exs d hvb hstore htt hexs hd
    have hfind : (db.workouts ++ [(⟨db.nextWorkoutId, d, none, now, now⟩ :
        WorkoutRow)]).find? (fun x => x.id == db.nextWorkoutId) =
        some ⟨db.nextWorkoutId, d, none, now, now⟩ :=
      find?_fresh _ _ _ (fun x hx => by have := hwf.wLt x hx; omega) rfl
    have hget := get_after_insert
      { db with workouts := db.workouts ++ [⟨db.nextWorkoutId, d, none, now, now⟩] }
      db.nextWorkoutId ⟨db.nextWorkoutId, d, none, now, now⟩ exs
      (db.nextWorkoutId + 1) (db.nextExerciseId + exs.length)
      (db.nextSetId + totalSets exs)
      hfind (fun e he => hwf.noex e he) (fun s hs => hwf.setlt s hs)
    refine ⟨db.nextWorkoutId, createdDB db none now d exs, _,
      summaryOf (createdDB db none now d exs) ⟨db.nextWorkoutId, d, none, now, now⟩,
      hc,
      ⟨⟨db.nextWorkoutId, d, none, now, now⟩,
        List.mem_append_right _ (List.mem_singleton.mpr rfl), rfl, rfl⟩,
      hget, rfl, ?_, rfl, rfl⟩
    unfold list_workouts
    refine (List.Perm.mem_iff (List.perm_insertionSort sumLe _)).mpr ?_
    exact List.mem_map_of_mem _
      (List.mem_append_right _ (List.mem_singleton.mpr rfl))
  · intro db p now fs s hv hst hp hts hsne
    subst hp
    have hvb := (validate_ok_nil_iff _).mp hv
    obtain ⟨hdate, exs, hexs, hne, hall⟩ := validPayload_shape hvb
    obtain ⟨d, hd⟩ := Option.isSome_iff_exists.mp hdate
    have hstore := storable_shape hexs hst
    obtain ⟨htOk, htN⟩ := titleProj_nonblank hts hsne
    have htt := titleOf_of_titleOk htOk
    rw [htN] at htt
    have hc := create_workout_ok db fs now (some (pyStrip s)) exs d hvb hstore htt hexs hd
    exact ⟨db.nextWorkoutId, _, hc,
      ⟨db.nextWorkoutId, d, some (pyStrip s), now, now⟩,
      List.mem_append_right _ (List.mem_singleton.mpr rfl), rfl, rfl⟩
  · intro db wid p now db' fs hwf hv hp hbt hu
    subst hp
    have hvb := (validate_ok_nil_iff _).mp hv
    obtain ⟨t, w₀, d, htt, hd, hw₀, hwid, hmem, tree, hget, htitle, _, _⟩ :=
      update_ok_components hwf hvb hu
    obtain ⟨htOk, htN⟩ := titleProj_blank hbt
    have htt2 := titleOf_of_titleOk htOk
    rw [htN] at htt2
    rw [htt] at htt2
    obtain rfl : t = none := Except.ok.inj htt2.symm |>.symm ▸ rfl
    exact ⟨⟨_, hmem, hwid, rfl⟩, tree, hget, htitle⟩
  · intro db wid p now db' fs s hwf hv hp hts hsne hu
    subst hp
    have hvb := (validate_ok_nil_iff _).mp hv
    obtain ⟨t, w₀, d, htt, hd, hw₀, hwid, hmem, tree, hget, htitle, _, _⟩ :=
      update_ok_components hwf hvb hu
    obtain ⟨htOk, htN⟩ := titleProj_nonblank hts hsne
    have htt2 := titleOf_of_titleOk htOk
    rw [htN] at htt2
    rw [htt] at htt2
    obtain rfl : t = some (pyStrip s) := Except.ok.inj htt2
    exact ⟨_, hmem, hwid, rfl⟩

theorem buildSets_pairs (eid : Nat) (ss : List Val) :
    ∀ n sid, (buildSets eid n sid ss).map (fun r => (r.reps, r.weight)) =
      ss.map (fun s =>
        ((pyInt (vget s "reps")).getD 0, pyFloatD (vget s "weight"))) := by
  induction ss with
  | nil => simp [buildSets]
  | cons s rest ih => intro n sid; simp [buildSets, ih (n + 1) (sid + 1)]

theorem buildExs_pairs (wid : Nat) (exs : List Val) :
    ∀ n eid sid,
      ((buildExs wid n eid sid exs).flatMap Prod.snd).map (fun r => (r.reps, r.weight)) =
        exs.flatMap (fun ex => (setsOfEx ex).map fun s =>
          ((pyInt (vget s "reps")).getD 0, pyFloatD (vget s "weight"))) := by
  induction exs with
  | nil => simp [buildExs]
  | cons ex rest ih =>
      intro n eid sid
      simp only [buildExs, List.flatMap_cons, List.map_append,
        ih (n + 1) (eid + 1) (sid + (setsOfEx ex).length), buildSets_pairs]

/-- C10: the store holds `int(reps)` — truncation toward zero — and
`float(weight)` for every validated payload, on both the create and the
update path; numeric strings ("5") and non-integer floats (5.9) are
accepted by the validator, so the stored reps can differ from the
payload's literal value. -/
theorem C10_numeric_coercion :
    (∀ db p now wid db', validate_workout_payload p = .ok [] →
        create_workout db p now = .ok (wid, db') →
        db'.sets.map (fun r => (r.reps, r.weight)) =
          db.sets.map (fun r => (r.reps, r.weight)) ++ coercedPairs p) ∧
    (∀ db wid p now db', validate_workout_payload p = .ok [] →
        update_workout db wid p now = .ok (true, db') →
        ∃ kept, db'.sets.map (fun r => (r.reps, r.weight)) =
          kept ++ coercedPairs p) ∧
    pyInt (.str "5") = some 5 ∧ pyInt (.num (mkRat 59 10)) = some 5 ∧
    pyInt (.num (-(mkRat 59 10))) = some (-5) ∧
    pyFloat (.str "2.5") = .ok (.finite (mkRat 5 2)) ∧
    validate_workout_payload coercePayload = .ok [] := by
  refine ⟨?_, ?_, rfl, rfl, rfl, by rfl, rfl⟩
  · intro db p now wid db' hv hc
    have hvb := (validate_ok_nil_iff _).mp hv
    obtain ⟨fs, t, exs, d, rfl, htt, hexs, hstore, hd, hwid, hdb⟩ :=
      create_ok_inv hvb hc
    subst hdb
    simp only [createdDB, List.map_append, buildExs_pairs]
    simp [coercedPairs, vget, hexs]
  · intro db wid p now db' hv hu
    have hvb := (validate_ok_nil_iff _).mp hv
    obtain ⟨fs, rfl⟩ := validPayload_dict hvb
    by_cases hfound : (db.workouts.find? (fun w => w.id == wid)).isNone
    · rw [update_workout, if_pos (by simp [hfound])] at hu
      exact absurd (congrArg Prod.fst (Except.ok.inj hu)) (by simp)
    have hfound' : (db.workouts.find? (fun w => w.id == wid)).isNone = false := by
      simpa using hfound
    rcases update_found_reduce now hvb hfound' with ⟨e, herr⟩ |
      ⟨t, exs, d, htt, hexs, hstore, hd, hup⟩
    · rw [herr] at hu
      exact Except.noConfusion hu
    · rw [hup] at hu
      have hdb : db' = updatedDB db wid t now d exs :=
        (congrArg Prod.snd (Except.ok.inj hu)).symm
      subst hdb
      refine ⟨(db.sets.filter (fun s =>
          !(((db.exercises.filter (fun e => e.workout_id == wid)).map
              (·.id)).contains s.exercise_id))).map
        (fun r => (r.reps, r.weight)), ?_⟩
      simp only [updatedDB, List.map_append, buildExs_pairs]
      simp [coercedPairs, vget, hexs]

/-- C10 witness: `coercePayload` (reps "5" and 5.9) validates and is stored
as reps 5 and 5 with weights 135.0 and 2.5. -/
theorem C10_witness :
    ∃ db',
      create_workout DB.empty coercePayload "2024-03-03T10:00:00Z" = .ok (1, db') ∧
      db'.sets.map (fun r => (r.reps, r.weight)) =
        [(5, .finite 135), (5, .finite (mkRat 5 2))] := by
  refine ⟨((create_workout DB.empty coercePayload
      "2024-03-03T10:00:00Z").toOption.getD (0, DB.empty)).2, by rfl, ?_⟩
  have h := C10_numeric_coercion.1 DB.empty coercePayload "2024-03-03T10:00:00Z" 1
    (((create_workout DB.empty coercePayload
      "2024-03-03T10:00:00Z").toOption.getD (0, DB.empty)).2) (by rfl) (by rfl)
  rw [h]
  rfl

/-- C9 counterexample to the claim as stated: `nanBlankPayload` has a
whitespace-only title and validates cleanly, yet `create` stores nothing —
sqlite3 binds its NaN weight as NULL and `weight REAL NOT NULL` raises
IntegrityError — so no NULL title is stored and nothing reads back. -/
theorem C9_counterexample :
    validate_workout_payload nanBlankPayload = .ok [] ∧
      blankTitle (dget nanBlankFields "title") ∧
      create_workout DB.empty nanBlankPayload "2024-05-06T10:00:00Z" =
        .error .integrityError :=
  ⟨by rfl, Or.inr ⟨"  ", by rfl, by rfl⟩, by rfl⟩

/-- C9 witness: creating with a whitespace-only title stores NULL and reads
back as the empty string in both `get` and `list`. -/
theorem C9_witness :
    ∃ wid db' tree sm,
      create_workout DB.empty blankTitlePayload "2024-04-04T10:00:00Z" =
        .ok (wid, db') ∧
      (∃ w ∈ db'.workouts, w.id = wid ∧ w.title = none) ∧
      get_workout db' wid = some tree ∧ tree.title = "" ∧
      sm ∈ list_workouts db' ∧ sm.id = wid ∧ sm.title = "" :=
  C9_title_normalization.1 DB.empty blankTitlePayload "2024-04-04T10:00:00Z" _
    ⟨by decide, by decide, by decide, by decide, by decide, by decide,
     by decide, by decide⟩
    (by rfl) (by rfl) rfl (Or.inr ⟨"   ", rfl, by rfl⟩)

end WL
